import Mathlib

/-!
Shallow embedding of the pagination, resolution and normalization layer of
scripts/openproject_cli.py, together with proofs about the claims made by the
specification. JSON payloads are modelled by an inductive type; the HTTP layer
is modelled by passing the server responses (one per request the code makes)
as explicit arguments, and each effectful operation additionally returns the
list of requests it issued so that claims about which calls happen can be
stated. Machine integers are modelled as Int / Nat (no overflow is relevant
here: Python integers are unbounded).
-/

set_option maxRecDepth 4000

/-- Model of a Python JSON value as handled by the CLI. Numbers are modelled
as integers (the fields the code inspects - ids, lockVersion, count - are
integral). -/
inductive JSON where
  | null : JSON
  | bool (b : Bool) : JSON
  | num (n : Int) : JSON
  | str (s : String) : JSON
  | arr (elems : List JSON) : JSON
  | obj (fields : List (String × JSON)) : JSON

/-- First binding of a key in an object field list (Python dict lookup;
dict keys are unique, so first-match lookup is faithful). -/
def lookupField (fields : List (String × JSON)) (key : String) : Option JSON :=
  (fields.find? (fun p => p.1 == key)).map (fun p => p.2)

/-- Python `value.get(key)` on a dict: `none` when the key is absent. -/
def jsonGet (v : JSON) (key : String) : Option JSON :=
  match v with
  | JSON.obj fields => lookupField fields key
  | _ => none

/-- Python `value.get(key, default)` on a dict. -/
def jsonGetD (v : JSON) (key : String) (dflt : JSON) : JSON :=
  (jsonGet v key).getD dflt

/-- Python `value.get(key)` with a JSON `null` collapsing to Python `None`,
as in `work_package.get("lockVersion") is None` checks. -/
def pyGetNonNull (v : JSON) (key : String) : Option JSON :=
  match jsonGet v key with
  | some JSON.null => none
  | some w => some w
  | none => none

/-- Python truthiness of a JSON value. -/
def pyFalsy (v : JSON) : Bool :=
  match v with
  | JSON.null => true
  | JSON.bool b => !b
  | JSON.num n => n == 0
  | JSON.str s => s == ""
  | JSON.arr elems => elems.isEmpty
  | JSON.obj fields => fields.isEmpty

/-- Whether a JSON value is a dict (`isinstance(value, dict)`). -/
def JSON.isObj (v : JSON) : Bool :=
  match v with
  | JSON.obj _ => true
  | _ => false

/-- Python `str(value)` for the JSON values the code feeds to `str`. The
claims only exercise string, null, bool and int values; renderings of
composite values are abstracted to fixed placeholder strings. -/
def pyStrJ (v : JSON) : String :=
  match v with
  | JSON.str s => s
  | JSON.null => "None"
  | JSON.bool true => "True"
  | JSON.bool false => "False"
  | JSON.num n => toString n
  | JSON.arr _ => "<list>"
  | JSON.obj _ => "<dict>"

/-- Embedding of `nested_get` (openproject_cli.py:931): safely walk a nested
dictionary path, returning the default on a missing key or a non-dict
intermediate value. Total by construction, which models `returns without
raising`. -/
def nested_get (data : JSON) (keys : List String) (dflt : JSON) : JSON :=
  match keys with
  | [] => data
  | key :: rest =>
    match data with
    | JSON.obj fields =>
      match lookupField fields key with
      | some next => nested_get next rest dflt
      | none => dflt
    | _ => dflt

/-- Model of `OpenProjectError`: a message plus an optional HTTP status code
(absent for configuration and network errors). -/
structure OPError where
  msg : String
  status : Option Int
deriving DecidableEq

/-- Python `pat in s` on character lists: whether `pat` occurs contiguously
inside `cs`. An empty pattern occurs in every list, as in Python. -/
def infix_of (pat : List Char) : List Char → Bool
  | [] => pat.isEmpty
  | c :: rest => pat.isPrefixOf (c :: rest) || infix_of pat rest

/-- Python `needle in haystack` for strings. -/
def py_contains (haystack needle : String) : Bool :=
  infix_of needle.data haystack.data

/-- Python `str.lower` (the identity keys and vocabulary here are ASCII;
modelled by the ASCII lowering of each character). -/
def py_lower (s : String) : String :=
  String.mk (s.data.map Char.toLower)

/-- Python `str.upper`, ASCII. -/
def py_upper (s : String) : String :=
  String.mk (s.data.map Char.toUpper)

/-- Python `str.strip()`: drop whitespace from both ends. -/
def py_strip (s : String) : String :=
  String.mk (((s.data.dropWhile Char.isWhitespace).reverse.dropWhile Char.isWhitespace).reverse)

/-! ### Pagination collector (`_collect_collection`, openproject_cli.py:250) -/

/-- One HAL collection page as the collector inspects it: the embedded
elements (already extracted by `extract_embedded_elements`; modelled as
opaque items numbered by `Nat`), the value of the `count` field when the
payload carries an integral one (`none` models an absent or null field),
and whether `_links.nextByOffset` is a dict. -/
structure Page where
  elements : List Nat
  count : Option Int
  hasNext : Bool
deriving DecidableEq

/-- The count the collector computes from a page:
`int(data.get("count", len(elements)) or len(elements))`. A missing field or
a Python-falsy reported count (that is, zero) falls back to the number of
returned elements. -/
def page_count (p : Page) : Int :=
  match p.count with
  | none => p.elements.length
  | some c => if c = 0 then (p.elements.length : Int) else c

/-- The `while len(collected) < limit` loop of `_collect_collection`. The
server is modelled as the list of pages it would answer with, one per GET the
loop issues, consumed in order; the result pairs the collected elements with
the log of issued requests as (offset, pageSize) pairs. When the page list
runs out before the loop stops, the trace simply ends (the claims quantify
over all traces, so this loses nothing). -/
def collect_loop (limit pageSize : Nat) : List Page → Nat → List Nat → List Nat × List (Nat × Nat)
  | [], _, acc => (acc, [])
  | p :: rest, offset, acc =>
    if limit ≤ acc.length then (acc, [])
    else
      let remaining := limit - acc.length
      let req := (offset, min pageSize remaining)
      if p.elements.isEmpty then (acc, [req])
      else
        let acc' := acc ++ p.elements.take remaining
        let cnt := page_count p
        if cnt ≤ 0 then (acc', [req])
        else if !p.hasNext then (acc', [req])
        else
          let r := collect_loop limit pageSize rest (offset + cnt.toNat) acc'
          (r.1, req :: r.2)

/-- Embedding of `_collect_collection` (openproject_cli.py:250): `psParam`
is the optional `pageSize` entry popped from the caller-supplied params
(`int(base_params.pop("pageSize", min(limit, MAX_PAGE_SIZE)))`), `limit` the
requested item count. Returns the collected items and the request log. -/
def collect_collection (pages : List Page) (psParam : Option Int) (limit : Int) :
    List Nat × List (Nat × Nat) :=
  if limit ≤ 0 then ([], [])
  else
    let ps0 : Int := psParam.getD (min limit 200)
    let ps : Nat := (max 1 (min ps0 200)).toNat
    let r := collect_loop limit.toNat ps pages 1 []
    (r.1.take limit.toNat, r.2)

/-- The pagination loop exactly as the specification words it: identical to
the code except that the stop test uses the count the server reports
(`the server-reported total count is non-positive`) with no special casing of
a reported zero, and the offset advances by that reported count. -/
def spec_collect_loop (limit pageSize : Nat) : List Page → Nat → List Nat → List Nat × List (Nat × Nat)
  | [], _, acc => (acc, [])
  | p :: rest, offset, acc =>
    if limit ≤ acc.length then (acc, [])
    else
      let remaining := limit - acc.length
      let req := (offset, min pageSize remaining)
      if p.elements.isEmpty then (acc, [req])
      else
        let acc' := acc ++ p.elements.take remaining
        let cnt : Int := (p.count).getD p.elements.length
        if cnt ≤ 0 then (acc', [req])
        else if !p.hasNext then (acc', [req])
        else
          let r := spec_collect_loop limit pageSize rest (offset + cnt.toNat) acc'
          (r.1, req :: r.2)

/-- The collector as the specification claims it behaves (claim C1 as
stated). -/
def spec_collect (pages : List Page) (psParam : Option Int) (limit : Int) :
    List Nat × List (Nat × Nat) :=
  if limit ≤ 0 then ([], [])
  else
    let ps0 : Int := psParam.getD (min limit 200)
    let ps : Nat := (max 1 (min ps0 200)).toNat
    let r := spec_collect_loop limit.toNat ps pages 1 []
    (r.1.take limit.toNat, r.2)

/-- The amended stopping count, written from the amended wording of claim C1:
the effective count is the server-reported count when the payload carries a
nonzero one, and the number of returned items otherwise. -/
def amended_count (p : Page) : Int :=
  match p.count with
  | some c => if c ≠ 0 then c else p.elements.length
  | none => p.elements.length

/-- The pagination loop as the amended claim C1 words it. -/
def amended_collect_loop (limit pageSize : Nat) : List Page → Nat → List Nat → List Nat × List (Nat × Nat)
  | [], _, acc => (acc, [])
  | p :: rest, offset, acc =>
    if limit ≤ acc.length then (acc, [])
    else
      let remaining := limit - acc.length
      let req := (offset, min pageSize remaining)
      if p.elements.isEmpty then (acc, [req])
      else
        let acc' := acc ++ p.elements.take remaining
        let cnt := amended_count p
        if cnt ≤ 0 then (acc', [req])
        else if !p.hasNext then (acc', [req])
        else
          let r := amended_collect_loop limit pageSize rest (offset + cnt.toNat) acc'
          (r.1, req :: r.2)

/-- The collector as the amended claim C1 describes it. -/
def amended_collect (pages : List Page) (psParam : Option Int) (limit : Int) :
    List Nat × List (Nat × Nat) :=
  if limit ≤ 0 then ([], [])
  else
    let ps0 : Int := psParam.getD (min limit 200)
    let ps : Nat := (max 1 (min ps0 200)).toNat
    let r := amended_collect_loop limit.toNat ps pages 1 []
    (r.1.take limit.toNat, r.2)

/-! ### Path normalization (`to_api_path`, openproject_cli.py:48) -/

/-- The characters of the fixed API root `API_PREFIX = "/api/v3"`. -/
def apiV3chars : List Char := ("/api/v3").data

/-- Characters before the first occurrence of `c`. -/
def take_until (c : Char) (cs : List Char) : List Char :=
  cs.takeWhile (fun x => !(x == c))

/-- Valid URL scheme per Python urllib: nonempty, starts with a letter,
and contains only letters, digits, plus, minus and dot. -/
def scheme_char (c : Char) : Bool :=
  c.isAlpha || c.isDigit || c == '+' || c == '-' || c == '.'

/-- Whether a candidate scheme (text before the first colon) is a valid URL
scheme. -/
def scheme_ok (cs : List Char) : Bool :=
  match cs with
  | [] => false
  | c :: _ => c.isAlpha && cs.all scheme_char

/-- Model of Python `urlparse(url).path` for the inputs `to_api_path` feeds
it (strings containing a colon-slash-slash): cut the fragment at the first
hash, split off a valid scheme at the first colon, consume a
slash-slash-introduced network location up to the first slash, question mark
or hash, and return what remains up to the first question mark. -/
def url_path_chars (cs : List Char) : List Char :=
  let v := take_until '#' cs
  let pre := v.takeWhile (fun x => !(x == ':'))
  let rest := if pre.length < v.length && scheme_ok pre then v.drop (pre.length + 1) else v
  if ['/', '/'].isPrefixOf rest then
    let after := rest.drop 2
    let nl := after.takeWhile (fun c => !(c == '/') && !(c == '?') && !(c == '#'))
    take_until '?' (after.drop nl.length)
  else take_until '?' rest

/-- The last two steps of `to_api_path`: strip a leading `/api/v3` (an empty
remainder becomes the root slash) and ensure the value starts with a
slash. -/
def strip_v3_slash (cs : List Char) : List Char :=
  let cs2 :=
    if apiV3chars.isPrefixOf cs then
      let r := cs.drop apiV3chars.length
      if r.isEmpty then ['/'] else r
    else cs
  if cs2.head? = some '/' then cs2 else '/' :: cs2

/-- Embedding of `to_api_path` (openproject_cli.py:48) on the characters of
the already-stripped input. -/
def to_api_path_chars (cs : List Char) : List Char :=
  if cs.isEmpty then ['/']
  else
    let v :=
      if infix_of (("://").data) cs then
        let p := url_path_chars cs
        if p.isEmpty then ['/'] else p
      else cs
    strip_v3_slash v

/-- Embedding of `to_api_path` (openproject_cli.py:48): normalize an API
href or path into a path that can be passed to the request layer. -/
def to_api_path (url_or_path : String) : String :=
  String.mk (to_api_path_chars (py_strip url_or_path).data)

/-! ### Transition-aware status resolution (`resolve_allowed_transition_status`,
openproject_cli.py:618) -/

/-- A status name paired with the href the resolver returns for it. The href
is kept as a raw JSON value because the code returns whatever truthy value
`_links.self.href` held. -/
def NameHref : Type := String × JSON

/-- Calls `resolve_allowed_transition_status` can make: the work-package
form preflight (recording the lockVersion the payload carries) and the
global `/statuses` lookup performed by `resolve_status`. -/
inductive FormCall where
  | preflight (lockVersion : JSON) : FormCall
  | globalList : FormCall

/-- The `href or f"{API_PREFIX}/statuses/{status.get('id')}"` fallback for a
matched status entry. -/
def status_href_or_default (entry : JSON) (href : JSON) : JSON :=
  if pyFalsy href then
    JSON.str ("/api/v3/statuses/" ++ pyStrJ ((jsonGet entry "id").getD JSON.null))
  else href

/-- The trimmed `str(status.get("name", ""))` of an allowed-value entry. -/
def status_entry_name (entry : JSON) : String :=
  py_strip (pyStrJ (jsonGetD entry "name" (JSON.str "")))

/-- The for-loop over `allowedValues`: the first dict entry whose nonempty
name matches the lowered target, paired with its href (or the constructed
default). -/
def first_allowed_match (lowered : String) : List JSON → Option NameHref
  | [] => none
  | entry :: rest =>
    if entry.isObj then
      let name := status_entry_name entry
      if name ≠ "" && py_lower name == lowered then
        some (name, status_href_or_default entry (nested_get entry ["_links", "self", "href"] (JSON.str "")))
      else first_allowed_match lowered rest
    else first_allowed_match lowered rest

/-- The `available` list the for-loop accumulates: every nonempty name of a
dict entry. -/
def allowed_names : List JSON → List String
  | [] => []
  | entry :: rest =>
    if entry.isObj then
      let name := status_entry_name entry
      if name ≠ "" then name :: allowed_names rest else allowed_names rest
    else allowed_names rest

/-- Whether a preflight failure status falls back to the global list
(`exc.status_code in (404, 405, 422)`). -/
def preflight_fallback_status (st : Option Int) : Bool :=
  st == some 404 || st == some 405 || st == some 422

/-- Embedding of `resolve_allowed_transition_status` (openproject_cli.py:618).
The two HTTP interactions are passed in as oracles: `pre` is what the form
preflight POST would return, `glob` what `resolve_status statusName` would
return. The result is paired with the log of calls made, in order. -/
def resolve_allowed_transition_status (wp : JSON) (statusName : String)
    (pre : Except OPError JSON) (glob : Except OPError NameHref) :
    Except OPError NameHref × List FormCall :=
  match pyGetNonNull wp "lockVersion" with
  | none => (Except.error ⟨"Work package payload did not include lockVersion.", none⟩, [])
  | some lv =>
    if pyFalsy (nested_get wp ["_links", "update", "href"] (JSON.str "")) then
      (glob, [FormCall.globalList])
    else
      match pre with
      | Except.error e =>
        if preflight_fallback_status e.status then (glob, [FormCall.preflight lv, FormCall.globalList])
        else (Except.error e, [FormCall.preflight lv])
      | Except.ok form =>
        let schema := nested_get form ["_embedded", "schema", "status"] JSON.null
        if !schema.isObj then (glob, [FormCall.preflight lv, FormCall.globalList])
        else
          match nested_get schema ["_embedded", "allowedValues"] (JSON.arr []) with
          | JSON.arr values =>
            if values.isEmpty then (glob, [FormCall.preflight lv, FormCall.globalList])
            else
              match first_allowed_match (py_lower (py_strip statusName)) values with
              | some nh => (Except.ok nh, [FormCall.preflight lv])
              | none =>
                if (allowed_names values).isEmpty then
                  (glob, [FormCall.preflight lv, FormCall.globalList])
                else
                  (Except.error ⟨"Status is not an allowed transition for this work package.", none⟩,
                    [FormCall.preflight lv])
          | _ => (glob, [FormCall.preflight lv, FormCall.globalList])

/-- The named allowed transition statuses a successful preflight response
yields, written from the amended claim C3: the nonempty names below the
embedded status schema of the form, empty whenever the schema or the
allowed-values list is missing or malformed. -/
def transition_candidates (form : JSON) : List String :=
  let schema := nested_get form ["_embedded", "schema", "status"] JSON.null
  if schema.isObj then
    match nested_get schema ["_embedded", "allowedValues"] (JSON.arr []) with
    | JSON.arr values => allowed_names values
    | _ => []
  else []

/-- Whether the work package advertises a (truthy) update-form link. -/
def has_update_link (wp : JSON) : Bool :=
  !(pyFalsy (nested_get wp ["_links", "update", "href"] (JSON.str "")))

/-! ### Comment creation (`add_comment`, openproject_cli.py:832) -/

/-- The three comment-creation strategies, in the order the code tries them:
the advertised addComment link action, the lockVersion-guarded PATCH
(recording the lockVersion the payload carries), and the POST to the
activities endpoint. -/
inductive CommentCall where
  | viaLink : CommentCall
  | viaPatch (lockVersion : JSON) : CommentCall
  | viaActivities : CommentCall

/-- The whitelist that lets a failing comment strategy fall through to the
next one (`exc.status_code not in (400, 404, 405, 415, 422)` re-raises). -/
def comment_whitelist (st : Option Int) : Bool :=
  st == some 400 || st == some 404 || st == some 405 || st == some 415 || st == some 422

/-- Whether the work package advertises a usable addComment link: the link
is a dict, its href is truthy, and its upper-cased method is POST or
PATCH. -/
def comment_link_usable (wp : JSON) : Bool :=
  let link := nested_get wp ["_links", "addComment"] JSON.null
  link.isObj && !(pyFalsy (jsonGetD link "href" (JSON.str ""))) &&
    (py_upper (pyStrJ (jsonGetD link "method" (JSON.str "post"))) == "POST" ||
     py_upper (pyStrJ (jsonGetD link "method" (JSON.str "post"))) == "PATCH")

/-- Third comment strategy: POST to the activities endpoint; any failure is
wrapped into a terminal error. -/
def add_comment_activities (r3 : Except OPError JSON) (log : List CommentCall) :
    Except OPError JSON × List CommentCall :=
  match r3 with
  | Except.ok v => (Except.ok v, log ++ [CommentCall.viaActivities])
  | Except.error _ =>
    (Except.error ⟨"Unable to add comment. API v3 comment creation is not available via addComment, PATCH comment, or activities endpoint on this server or version.", none⟩,
      log ++ [CommentCall.viaActivities])

/-- Second comment strategy: the lockVersion-guarded PATCH, attempted only
when the work package carried a lockVersion; a non-whitelisted failure
propagates, a whitelisted one falls through to the activities POST. -/
def add_comment_patch (lockv : Option JSON) (r2 r3 : Except OPError JSON)
    (log : List CommentCall) : Except OPError JSON × List CommentCall :=
  match lockv with
  | none => add_comment_activities r3 log
  | some lv =>
    match r2 with
    | Except.ok v => (Except.ok v, log ++ [CommentCall.viaPatch lv])
    | Except.error e =>
      if comment_whitelist e.status then add_comment_activities r3 (log ++ [CommentCall.viaPatch lv])
      else (Except.error e, log ++ [CommentCall.viaPatch lv])

/-- Embedding of `add_comment` (openproject_cli.py:832). The three
HTTP interactions are passed as oracles `r1`, `r2`, `r3` (the responses the
server would give to the addComment action, the PATCH and the activities
POST); the result is paired with the ordered log of strategies actually
attempted. -/
def add_comment (wp : JSON) (r1 r2 r3 : Except OPError JSON) :
    Except OPError JSON × List CommentCall :=
  let lockv := pyGetNonNull wp "lockVersion"
  if comment_link_usable wp then
    match r1 with
    | Except.ok v => (Except.ok v, [CommentCall.viaLink])
    | Except.error e =>
      if comment_whitelist e.status then add_comment_patch lockv r2 r3 [CommentCall.viaLink]
      else (Except.error e, [CommentCall.viaLink])
  else add_comment_patch lockv r2 r3 []

/-! ### Relation creation (`create_relation`, openproject_cli.py:800) -/

/-- The closed relation-type vocabulary `RELATION_TYPES`
(openproject_cli.py:33). -/
def RELATION_TYPES : List String :=
  ["relates", "duplicates", "duplicated", "blocks", "blocked", "precedes",
   "follows", "includes", "partof", "requires", "required"]

/-- The single POST request `create_relation` issues when the type is
valid. -/
structure RelationRequest where
  method : String
  path : String
  rtype : String
  toHref : String
  description : Option String
  lag : Option Int
deriving DecidableEq

/-- Embedding of `create_relation` (openproject_cli.py:800): lowercase the
(stripped) relation type, reject it before any request when it is outside
the vocabulary, otherwise issue exactly one POST whose payload carries the
lowered type. `post` is the oracle for the server response to that POST. -/
def create_relation (fromId toId : Int) (relationType : String)
    (description : Option String) (lag : Option Int) (post : Except OPError JSON) :
    Except OPError JSON × List RelationRequest :=
  let relation := py_lower (py_strip relationType)
  if relation ∈ RELATION_TYPES then
    (post,
      [{ method := "POST"
         path := "/work_packages/" ++ toString fromId ++ "/relations"
         rtype := relation
         toHref := "/api/v3/work_packages/" ++ toString toId
         description := description
         lag := lag }])
  else
    (Except.error ⟨"Unsupported relation type.", none⟩, [])

/-! ### Date validation (`ensure_iso_date`, openproject_cli.py:1017) -/

/-- ASCII decimal digit test (code points 48 to 57). -/
def is_digit_char (c : Char) : Bool := 48 ≤ c.toNat && c.toNat ≤ 57

/-- Value of an ASCII digit character. -/
def dv (c : Char) : Nat := c.toNat - 48

/-- Decimal value of a digit string. -/
def nat_of_digits (cs : List Char) : Nat :=
  cs.foldl (fun a c => 10 * a + dv c) 0

/-- CPython strptime directive `%Y`, the regex `\d\d\d\d`: consume exactly
four digits. -/
def matchYear : List Char → Option (Nat × List Char)
  | a :: b :: c :: d :: rest =>
    if is_digit_char a && is_digit_char b && is_digit_char c && is_digit_char d then
      some (1000 * dv a + 100 * dv b + 10 * dv c + dv d, rest)
    else none
  | _ => none

/-- CPython strptime directive `%m`, the ordered-alternative regex
matching 1[0-2], then 0[1-9], then [1-9]: a one- or two-digit month. The
character literals of the regex are expressed through `dv` (for a digit
character, `dv c = 1` holds exactly for the character 1, and so on). -/
def matchMonth : List Char → Option (Nat × List Char)
  | [] => none
  | [c1] => if is_digit_char c1 && 1 ≤ dv c1 then some (dv c1, []) else none
  | c1 :: c2 :: rest =>
    if is_digit_char c1 && dv c1 = 1 && is_digit_char c2 && dv c2 ≤ 2 then
      some (10 + dv c2, rest)
    else if is_digit_char c1 && dv c1 = 0 && is_digit_char c2 && 1 ≤ dv c2 then
      some (dv c2, rest)
    else if is_digit_char c1 && 1 ≤ dv c1 then some (dv c1, c2 :: rest)
    else none

/-- CPython strptime directive `%d`, the ordered-alternative regex matching
3[01], then [12]\d, then 0[1-9], then [1-9]: a one- or two-digit day, with
regex character literals expressed through `dv` as in `matchMonth`. -/
def matchDay : List Char → Option (Nat × List Char)
  | [] => none
  | [c1] => if is_digit_char c1 && 1 ≤ dv c1 then some (dv c1, []) else none
  | c1 :: c2 :: rest =>
    if is_digit_char c1 && dv c1 = 3 && is_digit_char c2 && dv c2 ≤ 1 then
      some (30 + dv c2, rest)
    else if is_digit_char c1 && (dv c1 = 1 ∨ dv c1 = 2) && is_digit_char c2 then
      some (10 * dv c1 + dv c2, rest)
    else if is_digit_char c1 && dv c1 = 0 && is_digit_char c2 && 1 ≤ dv c2 then
      some (dv c2, rest)
    else if is_digit_char c1 && 1 ≤ dv c1 then some (dv c1, c2 :: rest)
    else none

/-- Gregorian leap-year rule, as used by Python datetime. -/
def is_leap (y : Nat) : Bool :=
  (y % 4 == 0 && y % 100 != 0) || y % 400 == 0

/-- Days in a month, as validated by the Python datetime constructor. -/
def days_in_month (y m : Nat) : Nat :=
  if m = 2 then (if is_leap y then 29 else 28)
  else if m = 4 ∨ m = 6 ∨ m = 9 ∨ m = 11 then 30
  else 31

/-- The literal hyphen of the strptime format string. -/
def expect_hyphen : List Char → Option (List Char)
  | [] => none
  | c :: rest => if c = '-' then some rest else none

/-- `datetime.strptime(value, "%Y-%m-%d")` up to the date-validity check:
year, literal hyphen, month, literal hyphen, day, end of input. -/
def parse_strptime_ymd (cs : List Char) : Option (Nat × Nat × Nat) :=
  (matchYear cs).bind (fun yr =>
    (expect_hyphen yr.2).bind (fun r2 =>
      (matchMonth r2).bind (fun mr =>
        (expect_hyphen mr.2).bind (fun r4 =>
          (matchDay r4).bind (fun dr =>
            if dr.2.isEmpty then some (yr.1, mr.1, dr.1) else none)))))

/-- Embedding of `ensure_iso_date` (openproject_cli.py:1017): strip the
input, run it through `datetime.strptime(value, "%Y-%m-%d")` (pattern match
plus calendar validity, including the datetime constructor rejecting year
zero), and return the stripped value on success. -/
def ensure_iso_date (value argName : String) : Except OPError String :=
  match parse_strptime_ymd (py_strip value).data with
  | some (y, m, d) =>
    if 1 ≤ y ∧ d ≤ days_in_month y m then Except.ok (py_strip value)
    else Except.error ⟨argName ++ " must be in YYYY-MM-DD format.", none⟩
  | none => Except.error ⟨argName ++ " must be in YYYY-MM-DD format.", none⟩

/-- The strict format claim C7 asserts: exactly ten characters
YYYY-MM-DD with zero-padded two-digit month and day, denoting a valid
calendar date. Written from the claim, not from the code. -/
def strict_iso_format (t : String) : Bool :=
  match t.data with
  | [y1, y2, y3, y4, h1, m1, m2, h2, d1, d2] =>
    is_digit_char y1 && is_digit_char y2 && is_digit_char y3 && is_digit_char y4 &&
    h1 == '-' && h2 == '-' &&
    is_digit_char m1 && is_digit_char m2 && is_digit_char d1 && is_digit_char d2 &&
    (let y := nat_of_digits [y1, y2, y3, y4]
     let m := nat_of_digits [m1, m2]
     let d := nat_of_digits [d1, d2]
     1 ≤ y && 1 ≤ m && m ≤ 12 && 1 ≤ d && d ≤ days_in_month y m)
  | _ => false

/-- The amended claim C7 acceptance condition, written from the amended
wording: the trimmed input decomposes as year-hyphen-month-hyphen-day where
the year is exactly four digits and at least 1, the month is one or two
digits in 1..12, and the day is one or two digits valid for that month and
year (zero padding optional). -/
def lenient_iso_spec (t : String) : Prop :=
  ∃ ys ms ds : List Char,
    t.data = ys ++ '-' :: (ms ++ '-' :: ds) ∧
    ys.length = 4 ∧ (∀ c ∈ ys, is_digit_char c) ∧ 1 ≤ nat_of_digits ys ∧
    (ms.length = 1 ∨ ms.length = 2) ∧ (∀ c ∈ ms, is_digit_char c) ∧
    1 ≤ nat_of_digits ms ∧ nat_of_digits ms ≤ 12 ∧
    (ds.length = 1 ∨ ds.length = 2) ∧ (∀ c ∈ ds, is_digit_char c) ∧
    1 ≤ nat_of_digits ds ∧ nat_of_digits ds ≤ days_in_month (nat_of_digits ys) (nat_of_digits ms)

/-! ### Output-file uniquification (`unique_path`, openproject_cli.py:1371) -/

/-- Model of `pathlib` stem/suffix splitting of a file name: the suffix
starts at the last dot, provided that dot is neither the first nor the last
character; otherwise there is no suffix. -/
def py_stem_suffix (name : String) : String × String :=
  let cs := name.data
  let tailLen := (cs.reverse.takeWhile (fun c => !(c == '.'))).length
  if tailLen = cs.length then (name, "")
  else
    let i := cs.length - 1 - tailLen
    if 0 < i ∧ i < cs.length - 1 then (String.mk (cs.take i), String.mk (cs.drop i))
    else (name, "")

/-- The candidate `f"{stem}-{counter}{suffix}"` built by the uniquification
loop. -/
def candidate_name (stem sfx : String) (k : Nat) : String :=
  stem ++ "-" ++ Nat.repr k ++ sfx

/-- The `while True` loop of `unique_path`, with explicit fuel. The
filesystem is modelled as the list of file names existing in the target
directory; `unique_path` passes enough fuel for the loop to find a free
candidate (proved below), so the fuel-exhausted base case is never the one
that answers. -/
def unique_path_loop (existing : List String) (stem sfx : String) : Nat → Nat → String
  | 0, k => candidate_name stem sfx k
  | fuel + 1, k =>
    let c := candidate_name stem sfx k
    if c ∈ existing then unique_path_loop existing stem sfx fuel (k + 1) else c

/-- Embedding of `unique_path` (openproject_cli.py:1371): return the path
itself when no file exists there, else append `-2`, `-3`, ... before the
extension until the candidate does not exist. -/
def unique_path (existing : List String) (base : String) : String :=
  if base ∈ existing then
    let sp := py_stem_suffix base
    unique_path_loop existing sp.1 sp.2 (existing.length + 1) 2
  else base

/-! ### User resolution (`resolve_user`, openproject_cli.py:512 and
`user_identity_keys`, openproject_cli.py:1067) -/

/-- Embedding of `user_identity_keys` (openproject_cli.py:1067): the
stripped name, login, first name, last name and joined full name when
nonempty, plus the id rendered as a string when present. -/
def user_identity_keys (user : JSON) : List String :=
  let name := py_strip (pyStrJ (jsonGetD user "name" (JSON.str "")))
  let login := py_strip (pyStrJ (jsonGetD user "login" (JSON.str "")))
  let first := py_strip (pyStrJ (jsonGetD user "firstName" (JSON.str "")))
  let last := py_strip (pyStrJ (jsonGetD user "lastName" (JSON.str "")))
  let full := (if first ≠ "" && last ≠ "" then first ++ " " ++ last
               else if first ≠ "" then first else last)
  ([name, login, first, last, full].filter (fun s => s ≠ "")) ++
    (match pyGetNonNull user "id" with
     | some idv => [pyStrJ idv]
     | none => [])

/-- Whether the lowered target appears verbatim among a user's lowered
identity keys (the exact-match test of the resolve_user loop). -/
def is_exact (target : String) (user : JSON) : Bool :=
  (user_identity_keys user).map py_lower |>.contains (py_lower target)

/-- Whether the lowered target is a substring of some lowered identity key
(the partial-match test of the resolve_user loop). -/
def is_partial (target : String) (user : JSON) : Bool :=
  (user_identity_keys user).map py_lower |>.any (fun key => py_contains key (py_lower target))

/-- The matching loop of `resolve_user` (openproject_cli.py:537): walk the
users in order, returning at the first exact match, while remembering the
first partial match seen. -/
def resolve_user_loop (lowered : String) : List JSON → Option JSON → Option JSON
  | [], part => part
  | u :: rest, part =>
    let lk := (user_identity_keys u).map py_lower
    if lk.contains lowered then some u
    else resolve_user_loop lowered rest
      (if part.isNone && lk.any (fun key => py_contains key lowered) then some u else part)

/-- The selection `resolve_user` makes for a non-numeric reference once the
user list is fetched: `exact_match or partial_match` over the loop above
(`target` is the already-stripped reference). -/
def resolve_user_select (users : List JSON) (target : String) : Option JSON :=
  resolve_user_loop (py_lower target) users none

/-- Python `str.isdigit` restricted to ASCII input: nonempty and all
digits. Used only to state that a reference is non-numeric. -/
def py_isdigit (s : String) : Bool :=
  !s.isEmpty && s.data.all is_digit_char

/-! ### Specification predicate for `nested_get` (claim C10) -/

/-- The path-following relation claim C10 describes: the value reached from
`data` by following `keys` where every intermediate value is a dict
containing the next key. -/
inductive FollowsPath : JSON → List String → JSON → Prop where
  | nil (v : JSON) : FollowsPath v [] v
  | cons {fields : List (String × JSON)} {key : String} {rest : List String} {next v : JSON}
      (hlook : lookupField fields key = some next)
      (htail : FollowsPath next rest v) :
      FollowsPath (JSON.obj fields) (key :: rest) v

/-- Decimal digit characters of a natural number, most significant first
(the reference rendering used to reason about `Nat.repr`). -/
def repr_digits (n : Nat) : List Char :=
  if _h : n < 10 then [Nat.digitChar n]
  else repr_digits (n / 10) ++ [Nat.digitChar (n % 10)]
decreasing_by exact Nat.div_lt_self (by omega) (by omega)

/-! ## Theorems -/

/-- Helper: `FollowsPath` from a non-dict value only holds for the empty
path. -/
theorem nested_get_of_followsPath (data : JSON) (keys : List String) (dflt v : JSON)
    (h : FollowsPath data keys v) : nested_get data keys dflt = v := by
  induction h with
  | nil => rfl
  | cons hlook _ ih => simpa [nested_get, hlook] using ih

/-- Claim C10: for every dictionary, key sequence and default, `nested_get`
returns the value reached by following the keys when every intermediate
value is a dictionary containing the next key, and the supplied default in
every other case; it is total, so it never raises. -/
theorem nested_get_total_spec (data : JSON) (keys : List String) (dflt : JSON) :
    (∀ v, FollowsPath data keys v → nested_get data keys dflt = v) ∧
    ((¬ ∃ v, FollowsPath data keys v) → nested_get data keys dflt = dflt) := by
  constructor
  · intro v h; exact nested_get_of_followsPath data keys dflt v h
  · intro hno
    induction keys generalizing data with
    | nil => exact absurd ⟨data, FollowsPath.nil data⟩ hno
    | cons k rest ih =>
      cases data with
      | obj fields =>
        cases hl : lookupField fields k with
        | none => simp [nested_get, hl]
        | some next =>
          simp only [nested_get, hl]
          exact ih next (fun ⟨v, hv⟩ => hno ⟨v, FollowsPath.cons hl hv⟩)
      | null => rfl
      | bool b => rfl
      | num n => rfl
      | str s => rfl
      | arr elems => rfl

/-- Witness for claim C10 at a concrete nested dictionary. -/
theorem nested_get_total_spec_witness :
    nested_get (JSON.obj [("a", JSON.obj [("b", JSON.num 3)])]) ["a", "b"] (JSON.str "") = JSON.num 3 :=
  (nested_get_total_spec (JSON.obj [("a", JSON.obj [("b", JSON.num 3)])]) ["a", "b"] (JSON.str "")).1
    (JSON.num 3)
    (FollowsPath.cons rfl (FollowsPath.cons rfl (FollowsPath.nil (JSON.num 3))))

/-- Claim C5: relation creation lowercases and validates the relation type
against the closed vocabulary before any network request; an invalid type
yields an error with no request issued, a valid one issues exactly one POST
carrying the lowered type. -/
theorem create_relation_validates (fromId toId : Int) (relationType : String)
    (description : Option String) (lag : Option Int) (post : Except OPError JSON) :
    (py_lower (py_strip relationType) ∉ RELATION_TYPES →
      create_relation fromId toId relationType description lag post =
        (Except.error ⟨"Unsupported relation type.", none⟩, [])) ∧
    (py_lower (py_strip relationType) ∈ RELATION_TYPES →
      create_relation fromId toId relationType description lag post =
        (post,
          [{ method := "POST"
             path := "/work_packages/" ++ toString fromId ++ "/relations"
             rtype := py_lower (py_strip relationType)
             toHref := "/api/v3/work_packages/" ++ toString toId
             description := description
             lag := lag }])) := by
  constructor <;> intro h <;> simp [create_relation, h]

/-- Witness for claim C5: a mixed-case valid type issues the single POST,
and an out-of-vocabulary type issues nothing. -/
theorem create_relation_validates_witness :
    create_relation 1 2 "BLOCKS" none none (Except.ok JSON.null) =
      (Except.ok JSON.null,
        [{ method := "POST", path := "/work_packages/1/relations", rtype := "blocks",
           toHref := "/api/v3/work_packages/2", description := none, lag := none }]) ∧
    create_relation 1 2 "unrelated-kind" none none (Except.ok JSON.null) =
      (Except.error ⟨"Unsupported relation type.", none⟩, []) := by
  constructor
  · exact (create_relation_validates 1 2 "BLOCKS" none none (Except.ok JSON.null)).2 (by decide)
  · exact (create_relation_validates 1 2 "unrelated-kind" none none (Except.ok JSON.null)).1 (by decide)

/-- Helper: once the collected list has reached the limit, the pagination
loop issues no further request. -/
theorem collect_loop_stop (pages : List Page) (limit ps offset : Nat) (acc : List Nat)
    (h : limit ≤ acc.length) : collect_loop limit ps pages offset acc = (acc, []) := by
  cases pages with
  | nil => rfl
  | cons p rest => simp [collect_loop, h]

/-- Helper: a first page that already supplies `limit` elements leads to
exactly one request, whatever its link metadata and whatever further pages
exist. -/
theorem collect_loop_fill (limit ps offset : Nat) (p : Page) (rest : List Page)
    (hpos : 0 < limit) (hfill : limit ≤ p.elements.length) :
    (collect_loop limit ps (p :: rest) offset []).2.length = 1 := by
  have hne : p.elements.isEmpty = false := by
    cases he : p.elements with
    | nil => rw [he] at hfill; simp at hfill; omega
    | cons a l => rfl
  have h0 : ¬ limit = 0 := by omega
  have hguard : ¬ (limit ≤ ([] : List Nat).length) := by simp; omega
  have hlen : limit ≤ (p.elements.take limit).length := by
    simp [List.length_take]; omega
  by_cases h1 : page_count p ≤ 0
  · simp [collect_loop, hne, hguard, h1, h0]
  · by_cases h2 : p.hasNext
    · simp [collect_loop, hne, hguard, h1, h2, h0,
        collect_loop_stop rest limit ps (offset + (page_count p).toNat)
          (p.elements.take limit) hlen]
    · simp [collect_loop, hne, hguard, h1, h2, h0]

/-- Claim C2: the collector returns at most `limit` items; once a page has
already supplied `limit` items it issues no further request, whatever the
link metadata of that page says and whatever further pages the server could
supply; and in general the loop issues no request once the collected list
has reached the limit. -/
theorem collect_collection_limit (pages : List Page) (psParam : Option Int) (limit : Int)
    (p : Page) (rest : List Page) :
    (collect_collection pages psParam limit).1.length ≤ limit.toNat ∧
    (0 < limit → limit.toNat ≤ p.elements.length →
      (collect_collection (p :: rest) psParam limit).2.length = 1) ∧
    (∀ (lim ps offset : Nat) (acc : List Nat), lim ≤ acc.length →
      collect_loop lim ps pages offset acc = (acc, [])) := by
  refine ⟨?_, ?_, fun lim ps offset acc h => collect_loop_stop pages lim ps offset acc h⟩
  · by_cases hl : limit ≤ 0
    · simp [collect_collection, hl]
    · simp [collect_collection, hl, List.length_take]
  · intro hpos hfill
    have hl : ¬ limit ≤ 0 := by omega
    have hn : 0 < limit.toNat := by omega
    simp only [collect_collection, hl, if_false]
    exact collect_loop_fill limit.toNat _ 1 p rest hn hfill

/-- Witness for claim C2: a page filling a limit of two, with a next link
present and a further page available, still leads to a single request and
at most two items. -/
theorem collect_collection_limit_witness :
    (collect_collection [⟨[7, 8, 9], some 3, true⟩, ⟨[10], some 1, false⟩] none 2).1.length ≤ 2 ∧
    (collect_collection [⟨[7, 8, 9], some 3, true⟩, ⟨[10], some 1, false⟩] none 2).2.length = 1 := by
  refine ⟨?_, ?_⟩
  · exact (collect_collection_limit [⟨[7, 8, 9], some 3, true⟩, ⟨[10], some 1, false⟩] none 2
      ⟨[7, 8, 9], some 3, true⟩ [⟨[10], some 1, false⟩]).1
  · exact (collect_collection_limit [⟨[7, 8, 9], some 3, true⟩, ⟨[10], some 1, false⟩] none 2
      ⟨[7, 8, 9], some 3, true⟩ [⟨[10], some 1, false⟩]).2.1 (by decide) (by decide)

/-- Helper: the falsy-count fallback the code computes coincides with the
effective count of the amended claim wording. -/
theorem page_count_eq_amended (p : Page) : page_count p = amended_count p := by
  unfold page_count amended_count
  cases p.count with
  | none => rfl
  | some c => by_cases h : c = 0 <;> simp [h]

/-- Helper: the collection loop and the amended-claim loop agree on every
trace. -/
theorem collect_loop_eq_amended (limit ps : Nat) (pages : List Page) :
    ∀ (offset : Nat) (acc : List Nat),
      collect_loop limit ps pages offset acc = amended_collect_loop limit ps pages offset acc := by
  induction pages with
  | nil => intro offset acc; rfl
  | cons p rest ih =>
    intro offset acc
    simp only [collect_loop, amended_collect_loop, page_count_eq_amended, ih]

/-- Claim C1 (amended): for every collection path, parameters and limit the
collector follows the amended algorithm: 1-based offset, page size capped at
200, each round requesting the minimum of the page size and the remaining
need, stopping on an empty page, on a non-positive effective count (the
server-reported count when nonzero, else the number of returned items), or
on missing nextByOffset link metadata, and otherwise advancing the offset by
that effective count. -/
theorem collect_collection_follows_amended_spec (pages : List Page) (psParam : Option Int)
    (limit : Int) :
    collect_collection pages psParam limit = amended_collect pages psParam limit := by
  unfold collect_collection amended_collect
  by_cases hl : limit ≤ 0
  · simp [hl]
  · simp [hl, collect_loop_eq_amended]

/-- Counterexample to claim C1 as stated: on a page reporting a count of
zero while returning one element (with next-page link metadata present), the
specified algorithm stops - the server-reported total count is
non-positive - but the code substitutes the number of returned elements for
the falsy zero and issues a second request. -/
theorem collect_collection_counterexample_c1 :
    (collect_collection [⟨[5], some 0, true⟩, ⟨[6], some 1, false⟩] none 3).2.length = 2 ∧
    (spec_collect [⟨[5], some 0, true⟩, ⟨[6], some 1, false⟩] none 3).2.length = 1 ∧
    collect_collection [⟨[5], some 0, true⟩, ⟨[6], some 1, false⟩] none 3 ≠
      spec_collect [⟨[5], some 0, true⟩, ⟨[6], some 1, false⟩] none 3 := by
  refine ⟨rfl, rfl, ?_⟩
  decide

/-- Claim C4: with the addComment link advertised and usable and a
lockVersion present, comment creation tries the link action, the
lockVersion-guarded PATCH and the activities POST in that order, moving to
the next strategy exactly when the failing one was rejected with a status
in the whitelist 400/404/405/415/422; any other error from the first two
strategies propagates immediately without attempting later strategies. -/
theorem add_comment_strategy_order (wp : JSON) (r1 r2 r3 : Except OPError JSON) (lv : JSON)
    (hlink : comment_link_usable wp = true)
    (hlock : pyGetNonNull wp "lockVersion" = some lv) :
    (∀ v, r1 = Except.ok v →
      add_comment wp r1 r2 r3 = (Except.ok v, [CommentCall.viaLink])) ∧
    (∀ e, r1 = Except.error e → comment_whitelist e.status = false →
      add_comment wp r1 r2 r3 = (Except.error e, [CommentCall.viaLink])) ∧
    (∀ e v, r1 = Except.error e → comment_whitelist e.status = true → r2 = Except.ok v →
      add_comment wp r1 r2 r3 = (Except.ok v, [CommentCall.viaLink, CommentCall.viaPatch lv])) ∧
    (∀ e e2, r1 = Except.error e → comment_whitelist e.status = true →
      r2 = Except.error e2 → comment_whitelist e2.status = false →
      add_comment wp r1 r2 r3 = (Except.error e2, [CommentCall.viaLink, CommentCall.viaPatch lv])) ∧
    (∀ e e2 v, r1 = Except.error e → comment_whitelist e.status = true →
      r2 = Except.error e2 → comment_whitelist e2.status = true → r3 = Except.ok v →
      add_comment wp r1 r2 r3 =
        (Except.ok v, [CommentCall.viaLink, CommentCall.viaPatch lv, CommentCall.viaActivities])) ∧
    (∀ e e2 e3, r1 = Except.error e → comment_whitelist e.status = true →
      r2 = Except.error e2 → comment_whitelist e2.status = true → r3 = Except.error e3 →
      add_comment wp r1 r2 r3 =
        (Except.error ⟨"Unable to add comment. API v3 comment creation is not available via addComment, PATCH comment, or activities endpoint on this server or version.", none⟩,
          [CommentCall.viaLink, CommentCall.viaPatch lv, CommentCall.viaActivities])) := by
  refine ⟨?_, ?_, ?_, ?_, ?_, ?_⟩
  · intro v h1
    simp [add_comment, hlink, h1]
  · intro e h1 hw
    simp [add_comment, hlink, h1, hw]
  · intro e v h1 hw h2
    simp [add_comment, add_comment_patch, hlink, hlock, h1, hw, h2]
  · intro e e2 h1 hw h2 hw2
    simp [add_comment, add_comment_patch, hlink, hlock, h1, hw, h2, hw2]
  · intro e e2 v h1 hw h2 hw2 h3
    simp [add_comment, add_comment_patch, add_comment_activities, hlink, hlock, h1, hw, h2, hw2, h3]
  · intro e e2 e3 h1 hw h2 hw2 h3
    simp [add_comment, add_comment_patch, add_comment_activities, hlink, hlock, h1, hw, h2, hw2, h3]

/-- Witness for claim C4: a work package advertising an addComment link and
carrying lockVersion 3, whose link action is rejected with 404, falls
through to the PATCH and succeeds there. -/
theorem add_comment_strategy_order_witness :
    add_comment
        (JSON.obj [("lockVersion", JSON.num 3),
          ("_links", JSON.obj [("addComment",
            JSON.obj [("href", JSON.str "/api/v3/work_packages/9/activities")])])])
        (Except.error ⟨"not found", some 404⟩) (Except.ok JSON.null) (Except.ok JSON.null) =
      (Except.ok JSON.null, [CommentCall.viaLink, CommentCall.viaPatch (JSON.num 3)]) :=
  ((add_comment_strategy_order
      (JSON.obj [("lockVersion", JSON.num 3),
        ("_links", JSON.obj [("addComment",
          JSON.obj [("href", JSON.str "/api/v3/work_packages/9/activities")])])])
      (Except.error ⟨"not found", some 404⟩) (Except.ok JSON.null) (Except.ok JSON.null)
      (JSON.num 3) rfl rfl).2.2.1)
    ⟨"not found", some 404⟩ JSON.null rfl rfl rfl

/-- Helper: a match among the allowed values implies the extracted name list
is nonempty. -/
theorem first_allowed_match_names (lowered : String) (values : List JSON) (nh : NameHref)
    (h : first_allowed_match lowered values = some nh) : allowed_names values ≠ [] := by
  induction values with
  | nil => simp [first_allowed_match] at h
  | cons entry rest ih =>
    by_cases hobj : entry.isObj = true
    · simp only [first_allowed_match, hobj, if_true] at h
      by_cases hname : status_entry_name entry ≠ ""
      · simp [allowed_names, hobj, hname]
      · have hname' : status_entry_name entry = "" := by simpa using hname
        rw [if_neg (by simp [hname'])] at h
        simp only [allowed_names, hobj, if_true, if_neg hname]
        exact ih h
    · simp only [first_allowed_match, hobj, if_false] at h
      simp only [allowed_names, hobj, if_false]
      exact ih h

/-- Claim C3 (amended): transition-aware status resolution for a work
package carrying a lockVersion first attempts the form preflight (carrying
that lockVersion) whenever the update link is advertised, and falls back to
the unscoped global status list exactly when the update link is missing,
when the preflight fails with 404, 405 or 422, or when the successful
preflight's form data yields no named allowed status values; a preflight
failure with any other status code propagates as the result without
consulting the global list. -/
theorem resolve_transition_two_tier (wp : JSON) (statusName : String)
    (pre : Except OPError JSON) (glob : Except OPError NameHref) (lv : JSON)
    (hlock : pyGetNonNull wp "lockVersion" = some lv) :
    (has_update_link wp = false →
      resolve_allowed_transition_status wp statusName pre glob = (glob, [FormCall.globalList])) ∧
    (has_update_link wp = true →
      (resolve_allowed_transition_status wp statusName pre glob).2.head? =
        some (FormCall.preflight lv)) ∧
    (∀ e, has_update_link wp = true → pre = Except.error e →
      preflight_fallback_status e.status = false →
      resolve_allowed_transition_status wp statusName pre glob =
        (Except.error e, [FormCall.preflight lv])) ∧
    (∀ e, has_update_link wp = true → pre = Except.error e →
      preflight_fallback_status e.status = true →
      resolve_allowed_transition_status wp statusName pre glob =
        (glob, [FormCall.preflight lv, FormCall.globalList])) ∧
    (∀ form, has_update_link wp = true → pre = Except.ok form →
      transition_candidates form = [] →
      resolve_allowed_transition_status wp statusName pre glob =
        (glob, [FormCall.preflight lv, FormCall.globalList])) ∧
    (∀ form, has_update_link wp = true → pre = Except.ok form →
      transition_candidates form ≠ [] →
      (resolve_allowed_transition_status wp statusName pre glob).2 = [FormCall.preflight lv]) := by
  refine ⟨?_, ?_, ?_, ?_, ?_, ?_⟩
  · intro hlink
    have hf : pyFalsy (nested_get wp ["_links", "update", "href"] (JSON.str "")) = true := by
      simpa [has_update_link] using hlink
    simp [resolve_allowed_transition_status, hlock, hf]
  · intro hlink
    have hf : pyFalsy (nested_get wp ["_links", "update", "href"] (JSON.str "")) = false := by
      simpa [has_update_link] using hlink
    simp only [resolve_allowed_transition_status, hlock, hf, Bool.false_eq_true, if_false]
    cases pre with
    | error e => repeat first | rfl | split
    | ok form => repeat first | rfl | split
  · intro e hlink hpre hw
    have hf : pyFalsy (nested_get wp ["_links", "update", "href"] (JSON.str "")) = false := by
      simpa [has_update_link] using hlink
    simp [resolve_allowed_transition_status, hlock, hf, hpre, hw]
  · intro e hlink hpre hw
    have hf : pyFalsy (nested_get wp ["_links", "update", "href"] (JSON.str "")) = false := by
      simpa [has_update_link] using hlink
    simp [resolve_allowed_transition_status, hlock, hf, hpre, hw]
  · intro form hlink hpre hcand
    have hf : pyFalsy (nested_get wp ["_links", "update", "href"] (JSON.str "")) = false := by
      simpa [has_update_link] using hlink
    rw [transition_candidates] at hcand
    simp only [resolve_allowed_transition_status, hlock, hf, Bool.false_eq_true, if_false, hpre]
    by_cases hobj : (nested_get form ["_embedded", "schema", "status"] JSON.null).isObj = true
    · rw [if_pos hobj] at hcand
      simp only [hobj, Bool.not_true, Bool.false_eq_true, if_false]
      cases hav : nested_get (nested_get form ["_embedded", "schema", "status"] JSON.null)
          ["_embedded", "allowedValues"] (JSON.arr []) with
      | arr values =>
        rw [hav] at hcand
        have hcand' : allowed_names values = [] := hcand
        cases values with
        | nil => simp
        | cons v vs =>
          simp only [List.isEmpty_cons, Bool.false_eq_true, if_false]
          cases hm : first_allowed_match (py_lower (py_strip statusName)) (v :: vs) with
          | some nh => exact absurd hcand' (first_allowed_match_names _ _ _ hm)
          | none => simp [hcand']
      | null => simp
      | bool b => simp
      | num n => simp
      | str s => simp
      | obj fields => simp
    · simp [hobj]
  · intro form hlink hpre hcand
    have hf : pyFalsy (nested_get wp ["_links", "update", "href"] (JSON.str "")) = false := by
      simpa [has_update_link] using hlink
    rw [transition_candidates] at hcand
    simp only [resolve_allowed_transition_status, hlock, hf, Bool.false_eq_true, if_false, hpre]
    by_cases hobj : (nested_get form ["_embedded", "schema", "status"] JSON.null).isObj = true
    · rw [if_pos hobj] at hcand
      simp only [hobj, Bool.not_true, Bool.false_eq_true, if_false]
      cases hav : nested_get (nested_get form ["_embedded", "schema", "status"] JSON.null)
          ["_embedded", "allowedValues"] (JSON.arr []) with
      | arr values =>
        rw [hav] at hcand
        have hcand' : allowed_names values ≠ [] := hcand
        cases values with
        | nil => exact absurd rfl hcand'
        | cons v vs =>
          simp only [List.isEmpty_cons, Bool.false_eq_true, if_false]
          cases hm : first_allowed_match (py_lower (py_strip statusName)) (v :: vs) with
          | some nh => rfl
          | none =>
            have hne : (allowed_names (v :: vs)).isEmpty = false := by
              cases hn : allowed_names (v :: vs) with
              | nil => exact absurd hn hcand'
              | cons a l => rfl
            simp [hne]
      | null => rw [hav] at hcand; exact absurd rfl hcand
      | bool b => rw [hav] at hcand; exact absurd rfl hcand
      | num n => rw [hav] at hcand; exact absurd rfl hcand
      | str s => rw [hav] at hcand; exact absurd rfl hcand
      | obj fields => rw [hav] at hcand; exact absurd rfl hcand
    · rw [if_neg hobj] at hcand
      exact absurd rfl hcand

/-- Counterexample to claim C3 as stated: a work package with lockVersion 1
and an advertised update link, whose form preflight succeeds but returns a
form without any status schema, still falls back to the unscoped global
status list - the preflight was available and did not fail with 404, 405 or
422, yet the global list is consulted. -/
theorem resolve_transition_counterexample_c3 :
    has_update_link
        (JSON.obj [("lockVersion", JSON.num 1),
          ("_links", JSON.obj [("update",
            JSON.obj [("href", JSON.str "/api/v3/work_packages/5/form")])])]) = true ∧
    resolve_allowed_transition_status
        (JSON.obj [("lockVersion", JSON.num 1),
          ("_links", JSON.obj [("update",
            JSON.obj [("href", JSON.str "/api/v3/work_packages/5/form")])])])
        "Closed" (Except.ok (JSON.obj []))
        (Except.ok ("Closed", JSON.str "/api/v3/statuses/2")) =
      (Except.ok ("Closed", JSON.str "/api/v3/statuses/2"),
        [FormCall.preflight (JSON.num 1), FormCall.globalList]) :=
  ⟨rfl, rfl⟩

/-- Witness for the amended claim C3: with an advertised update link and a
preflight rejected with status 500, the error propagates and the global
list is never consulted. -/
theorem resolve_transition_two_tier_witness :
    resolve_allowed_transition_status
        (JSON.obj [("lockVersion", JSON.num 1),
          ("_links", JSON.obj [("update",
            JSON.obj [("href", JSON.str "/api/v3/work_packages/5/form")])])])
        "Closed" (Except.error ⟨"server error", some 500⟩)
        (Except.ok ("Closed", JSON.str "/api/v3/statuses/2")) =
      (Except.error ⟨"server error", some 500⟩,
        [FormCall.preflight (JSON.num 1)]) :=
  ((resolve_transition_two_tier
      (JSON.obj [("lockVersion", JSON.num 1),
        ("_links", JSON.obj [("update",
          JSON.obj [("href", JSON.str "/api/v3/work_packages/5/form")])])])
      "Closed" (Except.error ⟨"server error", some 500⟩)
      (Except.ok ("Closed", JSON.str "/api/v3/statuses/2")) (JSON.num 1) rfl).2.2.1)
    ⟨"server error", some 500⟩ rfl rfl rfl

/-- Helper: whatever partial match has been remembered, the resolve_user
loop returns the first exact match when one exists. -/
theorem resolve_user_loop_exact (lowered : String) (users : List JSON) :
    ∀ (part : Option JSON) (u : JSON),
      users.find? (fun w => ((user_identity_keys w).map py_lower).contains lowered) = some u →
      resolve_user_loop lowered users part = some u := by
  induction users with
  | nil => intro part u h; simp at h
  | cons w rest ih =>
    intro part u h
    by_cases hw : ((user_identity_keys w).map py_lower).contains lowered = true
    · rw [@List.find?_cons_of_pos _ (fun x => ((user_identity_keys x).map py_lower).contains lowered)
        w rest hw] at h
      simp only [resolve_user_loop, hw, if_true]
      exact h.symm ▸ rfl
    · rw [@List.find?_cons_of_neg _ (fun x => ((user_identity_keys x).map py_lower).contains lowered)
        w rest (by simpa using hw)] at h
      simp only [resolve_user_loop, hw, Bool.false_eq_true, if_false]
      exact ih _ u h

/-- Helper: when no user matches exactly, the loop answers with the
remembered partial match if any, else with the first partial match among the
remaining users. -/
theorem resolve_user_loop_no_exact (lowered : String) (users : List JSON)
    (hno : ∀ u ∈ users, ((user_identity_keys u).map py_lower).contains lowered = false) :
    ∀ part : Option JSON,
      resolve_user_loop lowered users part =
        (match part with
         | some p => some p
         | none => users.find?
             (fun w => ((user_identity_keys w).map py_lower).any
               (fun key => py_contains key lowered))) := by
  induction users with
  | nil => intro part; cases part <;> simp [resolve_user_loop]
  | cons w rest ih =>
    intro part
    have hw := hno w (List.mem_cons_self w rest)
    have hrest : ∀ u ∈ rest, ((user_identity_keys u).map py_lower).contains lowered = false :=
      fun u hu => hno u (List.mem_cons_of_mem w hu)
    simp only [resolve_user_loop, hw, Bool.false_eq_true, if_false]
    cases part with
    | some p => simpa using ih hrest (some p)
    | none =>
      by_cases hp : ((user_identity_keys w).map py_lower).any
          (fun key => py_contains key lowered) = true
      · simp only [Option.isNone_none, Bool.true_and, hp, if_true]
        rw [ih hrest (some w),
          @List.find?_cons_of_pos _
            (fun x => ((user_identity_keys x).map py_lower).any (fun key => py_contains key lowered))
            w rest hp]
      · simp only [Option.isNone_none, Bool.true_and, hp, Bool.false_eq_true, if_false]
        rw [ih hrest none,
          @List.find?_cons_of_neg _
            (fun x => ((user_identity_keys x).map py_lower).any (fun key => py_contains key lowered))
            w rest (by simpa using hp)]

/-- Claim C9: for a nonempty, non-numeric user reference, resolution prefers
a user with an exact case-insensitive identity-key match (it returns the
first such user) over any user matching only by substring, even when the
substring match occurs earlier in the list; when no exact match exists the
first user in list order with a substring match is selected. -/
theorem resolve_user_prefers_exact (users : List JSON) (ref : String)
    (_hne : py_strip ref ≠ "") (_hnum : py_isdigit (py_strip ref) = false) :
    ((∃ u ∈ users, is_exact (py_strip ref) u = true) →
      resolve_user_select users (py_strip ref) =
        users.find? (fun u => is_exact (py_strip ref) u)) ∧
    ((∀ u ∈ users, is_exact (py_strip ref) u = false) →
      resolve_user_select users (py_strip ref) =
        users.find? (fun u => is_partial (py_strip ref) u)) := by
  constructor
  · intro hex
    obtain ⟨u, hu, hexu⟩ := hex
    have hsome : (users.find? (fun u => is_exact (py_strip ref) u)).isSome := by
      rw [List.find?_isSome]
      exact ⟨u, hu, hexu⟩
    obtain ⟨v, hv⟩ := Option.isSome_iff_exists.mp hsome
    rw [hv]
    exact resolve_user_loop_exact (py_lower (py_strip ref)) users none v
      (by simpa [is_exact] using hv)
  · intro hno
    have h := resolve_user_loop_no_exact (py_lower (py_strip ref)) users
      (by simpa [is_exact] using hno) none
    simpa [resolve_user_select, is_partial] using h

/-- Witness for claim C9: the target Bob matches the first user only as a
substring and the second exactly (case-insensitively); the second user is
selected. -/
theorem resolve_user_prefers_exact_witness :
    resolve_user_select
        [JSON.obj [("name", JSON.str "Bobby Tables")], JSON.obj [("name", JSON.str "BOB")]]
        (py_strip "Bob") =
      some (JSON.obj [("name", JSON.str "BOB")]) := by
  have h := (resolve_user_prefers_exact
      [JSON.obj [("name", JSON.str "Bobby Tables")], JSON.obj [("name", JSON.str "BOB")]]
      "Bob" (by decide) (by decide)).1
    ⟨JSON.obj [("name", JSON.str "BOB")], by simp, by decide⟩
  rw [h]
  rfl

/-- Helper: a list is a `isPrefixOf`-prefix of itself followed by
anything. -/
theorem isPrefixOf_append_self (l t : List Char) : l.isPrefixOf (l ++ t) = true := by
  simp [List.isPrefixOf_iff_prefix]

/-- Helper: an occurrence at the front witnesses containment. -/
theorem infix_of_self (pat t : List Char) : infix_of pat (pat ++ t) = true := by
  cases pat with
  | nil =>
    cases t with
    | nil => rfl
    | cons c r => simp [infix_of, List.isPrefixOf]
  | cons p ps =>
    simp only [List.cons_append, infix_of]
    have h := isPrefixOf_append_self (p :: ps) t
    simp only [List.cons_append] at h
    simp [h]

/-- Helper: containment is preserved by prepending. -/
theorem infix_of_append_left (pat A B : List Char) (h : infix_of pat B = true) :
    infix_of pat (A ++ B) = true := by
  induction A with
  | nil => simpa using h
  | cons a A' ih => simp [infix_of, ih]

/-- Helper: `take_until` passes over a block free of the delimiter. -/
theorem take_until_append_of_ne (c : Char) (A B : List Char) (h : ∀ x ∈ A, x ≠ c) :
    take_until c (A ++ B) = A ++ take_until c B := by
  unfold take_until
  exact List.takeWhile_append_of_pos (by intro a ha; simpa using h a ha)

/-- Helper: `take_until` on a cons. -/
theorem take_until_cons (c x : Char) (xs : List Char) :
    take_until c (x :: xs) = if x = c then [] else x :: take_until c xs := by
  by_cases h : x = c <;> simp [take_until, List.takeWhile_cons, h]

/-- Helper: valid scheme characters are not delimiters. -/
theorem scheme_char_ne (c : Char) (h : scheme_char c = true) :
    c ≠ '#' ∧ c ≠ ':' ∧ c ≠ '?' ∧ c ≠ '/' := by
  refine ⟨?_, ?_, ?_, ?_⟩ <;> rintro rfl <;> simp [scheme_char] at h

/-- Helper: the modelled `urlparse(...).path` of a well-formed absolute URL
built from a valid scheme, a delimiter-free network location, a path
component and an optional query/fragment part is exactly the path
component. -/
theorem url_path_chars_decompose (sch nl pth tail : List Char)
    (hsch : scheme_ok sch = true)
    (hnl : ∀ c ∈ nl, c ≠ '/' ∧ c ≠ '?' ∧ c ≠ '#')
    (hpth0 : pth = [] ∨ pth.head? = some '/')
    (hpth : ∀ c ∈ pth, c ≠ '?' ∧ c ≠ '#')
    (htail : tail = [] ∨ tail.head? = some '?' ∨ tail.head? = some '#') :
    url_path_chars (sch ++ ':' :: '/' :: '/' :: (nl ++ (pth ++ tail))) = pth := by
  have hallsch : ∀ c ∈ sch, scheme_char c = true := by
    cases sch with
    | nil => intro c hc; simp at hc
    | cons a l =>
      intro c hc
      have := (Bool.and_eq_true _ _).mp hsch
      exact (List.all_eq_true.mp this.2) c hc
  have hr' : take_until '#' tail = [] ∨ (take_until '#' tail).head? = some '?' := by
    rcases htail with h | h | h
    · subst h; left; rfl
    · cases tail with
      | nil => simp at h
      | cons x t =>
        simp only [List.head?_cons, Option.some.injEq] at h
        subst h
        right
        rw [take_until_cons, if_neg (by decide)]
        rfl
    · cases tail with
      | nil => simp at h
      | cons x t =>
        simp only [List.head?_cons, Option.some.injEq] at h
        subst h
        left
        rw [take_until_cons, if_pos rfl]
  have h1 : take_until '#' (nl ++ (pth ++ tail)) = nl ++ (pth ++ take_until '#' tail) := by
    rw [take_until_append_of_ne '#' nl _ (fun c hc => (hnl c hc).2.2),
        take_until_append_of_ne '#' pth _ (fun c hc => (hpth c hc).2)]
  have hv : take_until '#' (sch ++ ':' :: '/' :: '/' :: (nl ++ (pth ++ tail)))
      = sch ++ ':' :: '/' :: '/' :: (nl ++ (pth ++ take_until '#' tail)) := by
    rw [take_until_append_of_ne '#' sch _ (fun c hc => (scheme_char_ne c (hallsch c hc)).1),
        take_until_cons, if_neg (by decide), take_until_cons, if_neg (by decide),
        take_until_cons, if_neg (by decide), h1]
  have hpre : (sch ++ ':' :: '/' :: '/' :: (nl ++ (pth ++ take_until '#' tail))).takeWhile
      (fun x => !(x == ':')) = sch := by
    rw [List.takeWhile_append_of_pos
      (by intro a ha; simp [(scheme_char_ne a (hallsch a ha)).2.1])]
    simp [List.takeWhile_cons]
  have hdrop : (sch ++ ':' :: '/' :: '/' :: (nl ++ (pth ++ take_until '#' tail))).drop
      (sch.length + 1) = '/' :: '/' :: (nl ++ (pth ++ take_until '#' tail)) := by
    have hre : sch ++ ':' :: '/' :: '/' :: (nl ++ (pth ++ take_until '#' tail))
        = (sch ++ [':']) ++ ('/' :: '/' :: (nl ++ (pth ++ take_until '#' tail))) := by simp
    rw [hre, List.drop_left' (by simp)]
  have htw2 : (pth ++ take_until '#' tail).takeWhile
      (fun c => !(c == '/') && !(c == '?') && !(c == '#')) = [] := by
    rcases hpth0 with hp | hp
    · subst hp
      simp only [List.nil_append]
      rcases hr' with h | h
      · rw [h]; rfl
      · cases hq : take_until '#' tail with
        | nil => rfl
        | cons x t =>
          rw [hq] at h
          simp only [List.head?_cons, Option.some.injEq] at h
          subst h
          simp [List.takeWhile_cons]
    · cases pth with
      | nil => simp at hp
      | cons x t =>
        simp only [List.head?_cons, Option.some.injEq] at hp
        subst hp
        simp [List.takeWhile_cons]
  have htw3 : (nl ++ (pth ++ take_until '#' tail)).takeWhile
      (fun c => !(c == '/') && !(c == '?') && !(c == '#')) = nl := by
    rw [List.takeWhile_append_of_pos
      (by intro a ha
          obtain ⟨h1', h2', h3'⟩ := hnl a ha
          simp [h1', h2', h3'])]
    rw [htw2, List.append_nil]
  have hq : take_until '?' (pth ++ take_until '#' tail) = pth := by
    rw [take_until_append_of_ne '?' pth _ (fun c hc => (hpth c hc).1)]
    rcases hr' with h | h
    · rw [h]; simp [take_until]
    · cases hq2 : take_until '#' tail with
      | nil => simp [take_until]
      | cons x t =>
        rw [hq2] at h
        simp only [List.head?_cons, Option.some.injEq] at h
        subst h
        rw [take_until_cons, if_pos rfl, List.append_nil]
  simp only [url_path_chars, hv, hpre]
  have hcond : (decide (sch.length <
      (sch ++ ':' :: '/' :: '/' :: (nl ++ (pth ++ take_until '#' tail))).length) && scheme_ok sch)
      = true := by
    simp [hsch, List.length_append]
  rw [if_pos hcond, hdrop]
  have hpref : (['/', '/'].isPrefixOf
      ('/' :: '/' :: (nl ++ (pth ++ take_until '#' tail)))) = true := by
    simp [List.isPrefixOf]
  rw [if_pos hpref]
  simp only [List.drop_succ_cons, List.drop_zero, htw3]
  rw [List.drop_left, hq]

/-- Helper: ensuring a leading slash yields a leading slash. -/
theorem ensure_slash_head (w : List Char) :
    (if w.head? = some '/' then w else '/' :: w).head? = some '/' := by
  by_cases h : w.head? = some '/' <;> simp [h]

/-- Helper: the slash-ensuring step always yields a leading slash. -/
theorem strip_v3_slash_head (v : List Char) : (strip_v3_slash v).head? = some '/' :=
  ensure_slash_head _

/-- Counterexample to claim C6 as stated: the input `/api/v3//x` contains
the API prefix yet normalizes to `//x`, which has two leading slashes, and
the input `/foo/api/v3/bar` contains the API prefix yet is returned
unchanged, with the prefix not stripped. -/
theorem to_api_path_counterexample_c6 :
    (infix_of apiV3chars ("/api/v3//x").data = true ∧
      to_api_path "/api/v3//x" = "//x" ∧
      ("//x").data.take 2 = ['/', '/']) ∧
    (infix_of apiV3chars ("/foo/api/v3/bar").data = true ∧
      to_api_path "/foo/api/v3/bar" = "/foo/api/v3/bar") := by
  refine ⟨⟨by decide, ?_, by decide⟩, ⟨by decide, ?_⟩⟩ <;> rfl

/-- Claim C6 (amended): path normalization always returns a value starting
with a slash; when the (stripped) input is not a URL and starts with the
API prefix, the prefix is stripped and a slash is ensured in front of the
kept remainder; a bare relative path gains exactly one leading slash; and
for a well-formed full URL only the path component survives: the result is
a function of the path component alone, with scheme, network location,
query and fragment all discarded. -/
theorem to_api_path_normalizes :
    (∀ s : String, (to_api_path s).data.head? = some '/') ∧
    (∀ (s : String) (r : List Char),
      infix_of ("://").data (py_strip s).data = false →
      (py_strip s).data = apiV3chars ++ r →
      (to_api_path s).data =
        (if r.isEmpty then ['/']
         else if r.head? = some '/' then r else '/' :: r)) ∧
    (∀ s : String,
      (py_strip s).data ≠ [] →
      infix_of ("://").data (py_strip s).data = false →
      (py_strip s).data.head? ≠ some '/' →
      (to_api_path s).data = '/' :: (py_strip s).data) ∧
    (∀ (s : String) (sch nl pth tail : List Char),
      (py_strip s).data = sch ++ ':' :: '/' :: '/' :: (nl ++ (pth ++ tail)) →
      scheme_ok sch = true →
      (∀ c ∈ nl, c ≠ '/' ∧ c ≠ '?' ∧ c ≠ '#') →
      (pth = [] ∨ pth.head? = some '/') →
      (∀ c ∈ pth, c ≠ '?' ∧ c ≠ '#') →
      (tail = [] ∨ tail.head? = some '?' ∨ tail.head? = some '#') →
      (to_api_path s).data =
        strip_v3_slash (if pth.isEmpty then ['/'] else pth)) := by
  refine ⟨?_, ?_, ?_, ?_⟩
  · intro s
    unfold to_api_path to_api_path_chars
    by_cases he : (py_strip s).data.isEmpty
    · simp [he]
    · simp only [he, Bool.false_eq_true, if_false]
      exact strip_v3_slash_head _
  · intro s r hurl hpre
    unfold to_api_path to_api_path_chars
    rw [hpre] at hurl
    rw [hpre]
    have hne2 : (apiV3chars ++ r).isEmpty = false := rfl
    simp only [hne2, Bool.false_eq_true, if_false, hurl]
    unfold strip_v3_slash
    rw [if_pos (isPrefixOf_append_self apiV3chars r), List.drop_left]
    cases r with
    | nil => rfl
    | cons x t => simp only [List.isEmpty_cons, Bool.false_eq_true, if_false]
  · intro s hne hurl hslash
    obtain ⟨x, t, h⟩ : ∃ x t, (py_strip s).data = x :: t := by
      cases h : (py_strip s).data with
      | nil => exact absurd h hne
      | cons x t => exact ⟨x, t, rfl⟩
    have hx : x ≠ '/' := fun hx => hslash (by rw [h, hx]; rfl)
    unfold to_api_path to_api_path_chars
    rw [h] at hurl
    rw [h]
    simp only [List.isEmpty_cons, Bool.false_eq_true, if_false, hurl]
    unfold strip_v3_slash
    have hpre : apiV3chars.isPrefixOf (x :: t) = false := by
      cases hc : apiV3chars.isPrefixOf (x :: t) with
      | false => rfl
      | true =>
        obtain ⟨u, hu⟩ := List.isPrefixOf_iff_prefix.mp hc
        rw [show apiV3chars = '/' :: ("api/v3").data from rfl, List.cons_append] at hu
        injection hu with h1 h2
        exact absurd h1.symm hx
    have hnc : ¬ (apiV3chars.isPrefixOf (x :: t) = true) := by rw [hpre]; simp
    rw [if_neg hnc]
    have hns : ¬ ((x :: t).head? = some '/') := by
      simp only [List.head?_cons, Option.some.injEq]
      exact hx
    rw [if_neg hns]
  · intro s sch nl pth tail hdecomp hsch hnl hpth0 hpth htail
    unfold to_api_path to_api_path_chars
    rw [hdecomp]
    have hne : (sch ++ ':' :: '/' :: '/' :: (nl ++ (pth ++ tail))).isEmpty = false := by
      cases sch <;> rfl
    have hurl : infix_of (("://").data) (sch ++ ':' :: '/' :: '/' :: (nl ++ (pth ++ tail))) = true :=
      infix_of_append_left _ sch _ (infix_of_self ([':', '/', '/']) (nl ++ (pth ++ tail)))
    simp only [hne, Bool.false_eq_true, if_false, hurl, if_true]
    rw [url_path_chars_decompose sch nl pth tail hsch hnl hpth0 hpth htail]

/-- Witness for the amended claim C6: a full URL keeps only its path
component, which then has the API prefix stripped. -/
theorem to_api_path_normalizes_witness :
    (to_api_path "https://example.org/api/v3/projects/8?page=2#frag").data =
      strip_v3_slash (if ("/api/v3/projects/8").data.isEmpty then ['/']
        else ("/api/v3/projects/8").data) ∧
    to_api_path "https://example.org/api/v3/projects/8?page=2#frag" = "/projects/8" := by
  constructor
  · exact (to_api_path_normalizes.2.2.2) "https://example.org/api/v3/projects/8?page=2#frag"
      ("https").data ("example.org").data ("/api/v3/projects/8").data ("?page=2#frag").data
      (by decide) (by decide) (by decide) (by decide) (by decide) (by decide)
  · rfl

/-- Helper: soundness of the `%Y` matcher: it consumes exactly four digit
characters whose value it returns. -/
theorem matchYear_sound (cs rest : List Char) (y : Nat)
    (h : matchYear cs = some (y, rest)) :
    ∃ ys, cs = ys ++ rest ∧ ys.length = 4 ∧ (∀ c ∈ ys, is_digit_char c = true) ∧
      nat_of_digits ys = y := by
  rcases cs with _ | ⟨a, cs⟩
  · simp [matchYear] at h
  rcases cs with _ | ⟨b, cs⟩
  · simp [matchYear] at h
  rcases cs with _ | ⟨c, cs⟩
  · simp [matchYear] at h
  rcases cs with _ | ⟨d, t⟩
  · simp [matchYear] at h
  simp only [matchYear] at h
  by_cases hd : (is_digit_char a && is_digit_char b && is_digit_char c && is_digit_char d) = true
  · rw [if_pos hd] at h
    simp only [Option.some.injEq, Prod.mk.injEq] at h
    obtain ⟨hy, hr⟩ := h
    subst hr
    simp only [Bool.and_eq_true] at hd
    refine ⟨[a, b, c, d], by simp, rfl, ?_, ?_⟩
    · intro c' hc'
      simp only [List.mem_cons, List.not_mem_nil, or_false] at hc'
      rcases hc' with rfl | rfl | rfl | rfl
      · exact hd.1.1.1
      · exact hd.1.1.2
      · exact hd.1.2
      · exact hd.2
    · simp only [nat_of_digits, List.foldl]
      omega
  · rw [if_neg hd] at h
    simp at h

/-- Helper: completeness of the `%Y` matcher on four digits. -/
theorem matchYear_complete (ys rest : List Char) (hlen : ys.length = 4)
    (hd : ∀ c ∈ ys, is_digit_char c = true) :
    matchYear (ys ++ rest) = some (nat_of_digits ys, rest) := by
  rcases ys with _ | ⟨a, ys⟩
  · simp at hlen
  rcases ys with _ | ⟨b, ys⟩
  · simp at hlen
  rcases ys with _ | ⟨c, ys⟩
  · simp at hlen
  rcases ys with _ | ⟨d, t⟩
  · simp at hlen
  have ht : t = [] := by
    simp only [List.length_cons] at hlen
    exact List.length_eq_zero.mp (by omega)
  subst ht
  have ha := hd a (by simp)
  have hb := hd b (by simp)
  have hc := hd c (by simp)
  have hdd := hd d (by simp)
  simp only [List.cons_append, List.nil_append, matchYear]
  rw [if_pos (by simp [ha, hb, hc, hdd])]
  simp only [Option.some.injEq, Prod.mk.injEq]
  refine ⟨?_, trivial⟩
  simp only [nat_of_digits, List.foldl]
  omega

/-- Helper: a digit character has value at most 9. -/
theorem dv_le_nine (c : Char) (h : is_digit_char c = true) : dv c ≤ 9 := by
  simp only [is_digit_char, Bool.and_eq_true, decide_eq_true_eq] at h
  simp only [dv]
  omega

/-- Helper: soundness of the `%m` matcher. -/
theorem matchMonth_sound (cs rest : List Char) (m : Nat)
    (h : matchMonth cs = some (m, rest)) :
    ∃ ms, cs = ms ++ rest ∧ (ms.length = 1 ∨ ms.length = 2) ∧
      (∀ c ∈ ms, is_digit_char c = true) ∧ nat_of_digits ms = m ∧ 1 ≤ m ∧ m ≤ 12 := by
  rcases cs with _ | ⟨c1, cs⟩
  · simp [matchMonth] at h
  rcases cs with _ | ⟨c2, r⟩
  · simp only [matchMonth] at h
    by_cases h1 : (is_digit_char c1 && 1 ≤ dv c1) = true
    · rw [if_pos h1] at h
      simp only [Option.some.injEq, Prod.mk.injEq] at h
      obtain ⟨hm, hr⟩ := h
      subst hr
      simp only [Bool.and_eq_true, decide_eq_true_eq] at h1
      have h9 := dv_le_nine c1 h1.1
      refine ⟨[c1], by simp, Or.inl rfl, by simp [h1.1], ?_, by omega, by omega⟩
      simp only [nat_of_digits, List.foldl]
      omega
    · rw [if_neg h1] at h
      simp at h
  · simp only [matchMonth] at h
    by_cases hb1 : (is_digit_char c1 && dv c1 = 1 && is_digit_char c2 && dv c2 ≤ 2) = true
    · rw [if_pos hb1] at h
      simp only [Option.some.injEq, Prod.mk.injEq] at h
      obtain ⟨hm, hr⟩ := h
      subst hr
      simp only [Bool.and_eq_true, decide_eq_true_eq] at hb1
      refine ⟨[c1, c2], by simp, Or.inr rfl, ?_, ?_, by omega, by omega⟩
      · intro c' hc'
        simp only [List.mem_cons, List.not_mem_nil, or_false] at hc'
        rcases hc' with rfl | rfl
        · exact hb1.1.1.1
        · exact hb1.1.2
      · simp only [nat_of_digits, List.foldl]
        have := hb1.1.1.2
        omega
    · rw [if_neg hb1] at h
      by_cases hb2 : (is_digit_char c1 && dv c1 = 0 && is_digit_char c2 && 1 ≤ dv c2) = true
      · rw [if_pos hb2] at h
        simp only [Option.some.injEq, Prod.mk.injEq] at h
        obtain ⟨hm, hr⟩ := h
        subst hr
        simp only [Bool.and_eq_true, decide_eq_true_eq] at hb2
        have h9 := dv_le_nine c2 hb2.1.2
        refine ⟨[c1, c2], by simp, Or.inr rfl, ?_, ?_, by omega, by omega⟩
        · intro c' hc'
          simp only [List.mem_cons, List.not_mem_nil, or_false] at hc'
          rcases hc' with rfl | rfl
          · exact hb2.1.1.1
          · exact hb2.1.2
        · simp only [nat_of_digits, List.foldl]
          have := hb2.1.1.2
          omega
      · rw [if_neg hb2] at h
        by_cases hb3 : (is_digit_char c1 && 1 ≤ dv c1) = true
        · rw [if_pos hb3] at h
          simp only [Option.some.injEq, Prod.mk.injEq] at h
          obtain ⟨hm, hr⟩ := h
          subst hr
          simp only [Bool.and_eq_true, decide_eq_true_eq] at hb3
          have h9 := dv_le_nine c1 hb3.1
          refine ⟨[c1], by simp, Or.inl rfl, by simp [hb3.1], ?_, by omega, by omega⟩
          simp only [nat_of_digits, List.foldl]
          omega
        · rw [if_neg hb3] at h
          simp at h

/-- Helper: completeness of the `%m` matcher when a hyphen follows. -/
theorem matchMonth_complete (ms tl : List Char)
    (hlen : ms.length = 1 ∨ ms.length = 2)
    (hd : ∀ c ∈ ms, is_digit_char c = true)
    (hlo : 1 ≤ nat_of_digits ms) (hhi : nat_of_digits ms ≤ 12) :
    matchMonth (ms ++ '-' :: tl) = some (nat_of_digits ms, '-' :: tl) := by
  rcases ms with _ | ⟨c1, ms⟩
  · simp at hlen
  rcases ms with _ | ⟨c2, ms⟩
  · have h1 := hd c1 (by simp)
    have hv : nat_of_digits [c1] = dv c1 := by
      simp only [nat_of_digits, List.foldl]
      omega
    rw [hv] at hlo hhi
    simp only [List.cons_append, List.nil_append, matchMonth]
    rw [if_neg (by simp [is_digit_char]), if_neg (by simp [is_digit_char]),
      if_pos (by simp [h1, hlo])]
    rw [hv]
  · have hms : ms = [] := by
      rcases hlen with hl | hl
      · simp at hl
      · simpa using hl
    subst hms
    have h1 := hd c1 (by simp)
    have h2 := hd c2 (by simp)
    have h9a := dv_le_nine c1 h1
    have h9b := dv_le_nine c2 h2
    have hv : nat_of_digits [c1, c2] = 10 * dv c1 + dv c2 := by
      simp only [nat_of_digits, List.foldl]
      omega
    rw [hv] at hlo hhi
    simp only [List.cons_append, List.nil_append, matchMonth]
    by_cases hc1 : dv c1 = 1
    · have hc2 : dv c2 ≤ 2 := by omega
      rw [if_pos (by simp [h1, h2, hc1, hc2])]
      rw [hv]
      simp only [Option.some.injEq, Prod.mk.injEq]
      refine ⟨by omega, trivial⟩
    · have hc1' : dv c1 = 0 := by omega
      have hc2 : 1 ≤ dv c2 := by omega
      rw [if_neg (by simp [hc1]), if_pos (by simp [h1, h2, hc1', hc2])]
      rw [hv]
      simp only [Option.some.injEq, Prod.mk.injEq]
      refine ⟨by omega, trivial⟩

/-- Helper: soundness of the `%d` matcher. -/
theorem matchDay_sound (cs rest : List Char) (d : Nat)
    (h : matchDay cs = some (d, rest)) :
    ∃ ds, cs = ds ++ rest ∧ (ds.length = 1 ∨ ds.length = 2) ∧
      (∀ c ∈ ds, is_digit_char c = true) ∧ nat_of_digits ds = d ∧ 1 ≤ d ∧ d ≤ 31 := by
  rcases cs with _ | ⟨c1, cs⟩
  · simp [matchDay] at h
  rcases cs with _ | ⟨c2, r⟩
  · simp only [matchDay] at h
    by_cases h1 : (is_digit_char c1 && 1 ≤ dv c1) = true
    · rw [if_pos h1] at h
      simp only [Option.some.injEq, Prod.mk.injEq] at h
      obtain ⟨hm, hr⟩ := h
      subst hr
      simp only [Bool.and_eq_true, decide_eq_true_eq] at h1
      have h9 := dv_le_nine c1 h1.1
      refine ⟨[c1], by simp, Or.inl rfl, by simp [h1.1], ?_, by omega, by omega⟩
      simp only [nat_of_digits, List.foldl]
      omega
    · rw [if_neg h1] at h
      simp at h
  · simp only [matchDay] at h
    by_cases hb1 : (is_digit_char c1 && dv c1 = 3 && is_digit_char c2 && dv c2 ≤ 1) = true
    · rw [if_pos hb1] at h
      simp only [Option.some.injEq, Prod.mk.injEq] at h
      obtain ⟨hm, hr⟩ := h
      subst hr
      simp only [Bool.and_eq_true, decide_eq_true_eq] at hb1
      refine ⟨[c1, c2], by simp, Or.inr rfl, ?_, ?_, by omega, by omega⟩
      · intro c' hc'
        simp only [List.mem_cons, List.not_mem_nil, or_false] at hc'
        rcases hc' with rfl | rfl
        · exact hb1.1.1.1
        · exact hb1.1.2
      · simp only [nat_of_digits, List.foldl]
        have := hb1.1.1.2
        omega
    · rw [if_neg hb1] at h
      by_cases hb2 : (is_digit_char c1 && (dv c1 = 1 ∨ dv c1 = 2) && is_digit_char c2) = true
      · rw [if_pos hb2] at h
        simp only [Option.some.injEq, Prod.mk.injEq] at h
        obtain ⟨hm, hr⟩ := h
        subst hr
        simp only [Bool.and_eq_true, decide_eq_true_eq] at hb2
        have h9 := dv_le_nine c2 hb2.2
        refine ⟨[c1, c2], by simp, Or.inr rfl, ?_, ?_, ?_, ?_⟩
        · intro c' hc'
          simp only [List.mem_cons, List.not_mem_nil, or_false] at hc'
          rcases hc' with rfl | rfl
          · exact hb2.1.1
          · exact hb2.2
        · simp only [nat_of_digits, List.foldl]
          omega
        · rcases hb2.1.2 with h' | h' <;> omega
        · rcases hb2.1.2 with h' | h' <;> omega
      · rw [if_neg hb2] at h
        by_cases hb3 : (is_digit_char c1 && dv c1 = 0 && is_digit_char c2 && 1 ≤ dv c2) = true
        · rw [if_pos hb3] at h
          simp only [Option.some.injEq, Prod.mk.injEq] at h
          obtain ⟨hm, hr⟩ := h
          subst hr
          simp only [Bool.and_eq_true, decide_eq_true_eq] at hb3
          have h9 := dv_le_nine c2 hb3.1.2
          refine ⟨[c1, c2], by simp, Or.inr rfl, ?_, ?_, by omega, by omega⟩
          · intro c' hc'
            simp only [List.mem_cons, List.not_mem_nil, or_false] at hc'
            rcases hc' with rfl | rfl
            · exact hb3.1.1.1
            · exact hb3.1.2
          · simp only [nat_of_digits, List.foldl]
            have := hb3.1.1.2
            omega
        · rw [if_neg hb3] at h
          by_cases hb4 : (is_digit_char c1 && 1 ≤ dv c1) = true
          · rw [if_pos hb4] at h
            simp only [Option.some.injEq, Prod.mk.injEq] at h
            obtain ⟨hm, hr⟩ := h
            subst hr
            simp only [Bool.and_eq_true, decide_eq_true_eq] at hb4
            have h9 := dv_le_nine c1 hb4.1
            refine ⟨[c1], by simp, Or.inl rfl, by simp [hb4.1], ?_, by omega, by omega⟩
            simp only [nat_of_digits, List.foldl]
            omega
          · rw [if_neg hb4] at h
            simp at h

/-- Helper: completeness of the `%d` matcher at the end of the input. -/
theorem matchDay_complete (ds : List Char)
    (hlen : ds.length = 1 ∨ ds.length = 2)
    (hd : ∀ c ∈ ds, is_digit_char c = true)
    (hlo : 1 ≤ nat_of_digits ds) (hhi : nat_of_digits ds ≤ 31) :
    matchDay ds = some (nat_of_digits ds, []) := by
  rcases ds with _ | ⟨c1, ds⟩
  · simp at hlen
  rcases ds with _ | ⟨c2, ds⟩
  · have h1 := hd c1 (by simp)
    have hv : nat_of_digits [c1] = dv c1 := by
      simp only [nat_of_digits, List.foldl]
      omega
    rw [hv] at hlo hhi
    simp only [matchDay]
    rw [if_pos (by simp [h1, hlo])]
    rw [hv]
  · have hds : ds = [] := by
      rcases hlen with hl | hl
      · simp at hl
      · simpa using hl
    subst hds
    have h1 := hd c1 (by simp)
    have h2 := hd c2 (by simp)
    have h9a := dv_le_nine c1 h1
    have h9b := dv_le_nine c2 h2
    have hv : nat_of_digits [c1, c2] = 10 * dv c1 + dv c2 := by
      simp only [nat_of_digits, List.foldl]
      omega
    rw [hv] at hlo hhi
    simp only [matchDay]
    by_cases hc1 : dv c1 = 3
    · have hc2 : dv c2 ≤ 1 := by omega
      rw [if_pos (by simp [h1, h2, hc1, hc2])]
      rw [hv]
      simp only [Option.some.injEq, Prod.mk.injEq]
      refine ⟨by omega, trivial⟩
    · by_cases hc12 : dv c1 = 1 ∨ dv c1 = 2
      · rw [if_neg (by simp [hc1]), if_pos (by simp [h1, h2, hc12])]
        rw [hv]
      · have hc0 : dv c1 = 0 := by omega
        have hc2 : 1 ≤ dv c2 := by omega
        rw [if_neg (by simp [hc1]), if_neg (by simp [hc12]),
          if_pos (by simp [h1, h2, hc0, hc2])]
        rw [hv]
        simp only [Option.some.injEq, Prod.mk.injEq]
        refine ⟨by omega, trivial⟩

/-- Helper: soundness of the literal-hyphen step. -/
theorem expect_hyphen_sound (r t : List Char) (h : expect_hyphen r = some t) :
    r = '-' :: t := by
  cases r with
  | nil => simp [expect_hyphen] at h
  | cons c rest =>
    by_cases hc : c = '-'
    · subst hc
      simp only [expect_hyphen, if_true, Option.some.injEq] at h
      rw [h]
    · simp [expect_hyphen, hc] at h

/-- Helper: soundness of the full strptime pattern. -/
theorem parse_ymd_sound (cs : List Char) (y m d : Nat)
    (h : parse_strptime_ymd cs = some (y, m, d)) :
    ∃ ys ms ds, cs = ys ++ '-' :: (ms ++ '-' :: ds) ∧
      ys.length = 4 ∧ (∀ c ∈ ys, is_digit_char c = true) ∧ nat_of_digits ys = y ∧
      (ms.length = 1 ∨ ms.length = 2) ∧ (∀ c ∈ ms, is_digit_char c = true) ∧
      nat_of_digits ms = m ∧ 1 ≤ m ∧ m ≤ 12 ∧
      (ds.length = 1 ∨ ds.length = 2) ∧ (∀ c ∈ ds, is_digit_char c = true) ∧
      nat_of_digits ds = d ∧ 1 ≤ d ∧ d ≤ 31 := by
  unfold parse_strptime_ymd at h
  cases hY : matchYear cs with
  | none => rw [hY, Option.none_bind] at h; simp at h
  | some yr =>
    obtain ⟨y', r1⟩ := yr
    rw [hY, Option.some_bind] at h
    cases hH1 : expect_hyphen r1 with
    | none => rw [hH1, Option.none_bind] at h; simp at h
    | some r2 =>
      rw [hH1, Option.some_bind] at h
      have hr1 : r1 = '-' :: r2 := expect_hyphen_sound r1 r2 hH1
      cases hM : matchMonth r2 with
      | none => rw [hM, Option.none_bind] at h; simp at h
      | some mr =>
        obtain ⟨m', r3⟩ := mr
        rw [hM, Option.some_bind] at h
        cases hH2 : expect_hyphen r3 with
        | none => rw [hH2, Option.none_bind] at h; simp at h
        | some r4 =>
          rw [hH2, Option.some_bind] at h
          have hr3 : r3 = '-' :: r4 := expect_hyphen_sound r3 r4 hH2
          cases hD : matchDay r4 with
          | none => rw [hD, Option.none_bind] at h; simp at h
          | some dr =>
            obtain ⟨d', rest'⟩ := dr
            rw [hD, Option.some_bind] at h
            by_cases he : rest'.isEmpty = true
            · rw [if_pos he] at h
              simp only [Option.some.injEq, Prod.mk.injEq] at h
              obtain ⟨hy, hm, hd⟩ := h
              subst hy; subst hm; subst hd
              have hrest : rest' = [] := by
                cases rest' with
                | nil => rfl
                | cons a l => simp at he
              subst hrest
              obtain ⟨ys, hys, hyl, hyd, hyv⟩ := matchYear_sound cs _ _ hY
              obtain ⟨ms, hms, hml, hmd, hmv, hm1, hm2⟩ := matchMonth_sound r2 _ _ hM
              obtain ⟨ds, hds, hdl, hdd, hdv, hd1, hd2⟩ := matchDay_sound r4 _ _ hD
              rw [List.append_nil] at hds
              refine ⟨ys, ms, ds, ?_, hyl, hyd, hyv, hml, hmd, hmv, hm1, hm2,
                hdl, hdd, hdv, hd1, hd2⟩
              rw [hys, hr1, hms, hr3, hds]
            · rw [if_neg he] at h
              simp at h

/-- Helper: completeness of the full strptime pattern. -/
theorem parse_ymd_complete (ys ms ds : List Char)
    (hyl : ys.length = 4) (hyd : ∀ c ∈ ys, is_digit_char c = true)
    (hml : ms.length = 1 ∨ ms.length = 2) (hmd : ∀ c ∈ ms, is_digit_char c = true)
    (hm1 : 1 ≤ nat_of_digits ms) (hm2 : nat_of_digits ms ≤ 12)
    (hdl : ds.length = 1 ∨ ds.length = 2) (hdd : ∀ c ∈ ds, is_digit_char c = true)
    (hd1 : 1 ≤ nat_of_digits ds) (hd2 : nat_of_digits ds ≤ 31) :
    parse_strptime_ymd (ys ++ '-' :: (ms ++ '-' :: ds)) =
      some (nat_of_digits ys, nat_of_digits ms, nat_of_digits ds) := by
  have hY := matchYear_complete ys ('-' :: (ms ++ '-' :: ds)) hyl hyd
  have hM := matchMonth_complete ms ds hml hmd hm1 hm2
  have hD := matchDay_complete ds hdl hdd hd1 hd2
  have hH1 : expect_hyphen ('-' :: (ms ++ '-' :: ds)) = some (ms ++ '-' :: ds) := rfl
  have hH2 : expect_hyphen ('-' :: ds) = some ds := rfl
  unfold parse_strptime_ymd
  rw [hY, Option.some_bind, hH1, Option.some_bind, hM, Option.some_bind,
    hH2, Option.some_bind, hD, Option.some_bind]
  rfl

/-- Helper: no month has more than 31 days. -/
theorem days_in_month_le (y m : Nat) : days_in_month y m ≤ 31 := by
  unfold days_in_month
  split
  · split <;> omega
  · split <;> omega

/-- Claim C7 (amended): `ensure_iso_date` accepts an input exactly when its
stripped form is year-month-day with a four-digit year of at least 1, a one-
or two-digit month from 1 to 12 and a one- or two-digit day valid for that
month and year (zero padding of month and day optional, strptime-style), and
it returns the stripped value on success. -/
theorem ensure_iso_date_accepts (value argName : String) :
    ((∃ t, ensure_iso_date value argName = Except.ok t) ↔ lenient_iso_spec (py_strip value)) ∧
    (∀ t, ensure_iso_date value argName = Except.ok t → t = py_strip value) := by
  constructor
  · constructor
    · rintro ⟨t, ht⟩
      unfold ensure_iso_date at ht
      cases hP : parse_strptime_ymd (py_strip value).data with
      | none => rw [hP] at ht; simp at ht
      | some val =>
        obtain ⟨y, m, d⟩ := val
        rw [hP] at ht
        by_cases hc : 1 ≤ y ∧ d ≤ days_in_month y m
        · obtain ⟨ys, ms, ds, hdec, hyl, hyd, hyv, hml, hmd, hmv, hm1, hm2,
            hdl, hdd, hdv, hd1, hd2⟩ := parse_ymd_sound _ y m d hP
          exact ⟨ys, ms, ds, hdec, hyl, hyd, by omega, hml, hmd, by omega, by omega,
            hdl, hdd, by omega, by rw [hyv, hmv, hdv]; exact hc.2⟩
        · replace ht : (if 1 ≤ y ∧ d ≤ days_in_month y m then Except.ok (py_strip value)
              else (Except.error ⟨argName ++ " must be in YYYY-MM-DD format.", none⟩ :
                Except OPError String)) = Except.ok t := ht
          rw [if_neg hc] at ht
          simp at ht
    · rintro ⟨ys, ms, ds, hdec, hyl, hyd, hy1, hml, hmd, hm1, hm2, hdl, hdd, hd1, hdays⟩
      have hd31 : nat_of_digits ds ≤ 31 :=
        le_trans hdays (days_in_month_le (nat_of_digits ys) (nat_of_digits ms))
      have hP := parse_ymd_complete ys ms ds hyl hyd hml hmd hm1 hm2 hdl hdd hd1 hd31
      refine ⟨py_strip value, ?_⟩
      unfold ensure_iso_date
      rw [hdec, hP]
      show (if 1 ≤ nat_of_digits ys ∧ nat_of_digits ds ≤
          days_in_month (nat_of_digits ys) (nat_of_digits ms) then
          Except.ok (py_strip value)
        else (Except.error ⟨argName ++ " must be in YYYY-MM-DD format.", none⟩ :
          Except OPError String)) = Except.ok (py_strip value)
      rw [if_pos ⟨hy1, hdays⟩]
  · intro t ht
    unfold ensure_iso_date at ht
    cases hP : parse_strptime_ymd (py_strip value).data with
    | none => rw [hP] at ht; simp at ht
    | some val =>
      obtain ⟨y, m, d⟩ := val
      rw [hP] at ht
      replace ht : (if 1 ≤ y ∧ d ≤ days_in_month y m then Except.ok (py_strip value)
          else (Except.error ⟨argName ++ " must be in YYYY-MM-DD format.", none⟩ :
            Except OPError String)) = Except.ok t := ht
      by_cases hc : 1 ≤ y ∧ d ≤ days_in_month y m
      · rw [if_pos hc] at ht
        have := Except.ok.inj ht
        exact this.symm
      · rw [if_neg hc] at ht
        simp at ht

/-- Counterexample to claim C7 as stated: `2026-2-4` is not in zero-padded
YYYY-MM-DD format, yet `ensure_iso_date` accepts it (strptime permits one-
digit month and day); the locale-formatted `24.02.2026` is still
rejected. -/
theorem ensure_iso_date_counterexample_c7 :
    ensure_iso_date "2026-2-4" "--start-date" = Except.ok "2026-2-4" ∧
    strict_iso_format "2026-2-4" = false ∧
    ensure_iso_date "24.02.2026" "--start-date" =
      Except.error ⟨"--start-date must be in YYYY-MM-DD format.", none⟩ := by
  refine ⟨rfl, by decide, rfl⟩

/-- Witness for the amended claim C7: the canonical date 2026-02-24 is
accepted and its stripped form satisfies the lenient acceptance
condition. -/
theorem ensure_iso_date_accepts_witness :
    lenient_iso_spec (py_strip " 2026-02-24 ") :=
  (ensure_iso_date_accepts " 2026-02-24 " "--start-date").1.mp ⟨"2026-02-24", rfl⟩

/-- Helper: the fuelled core of `Nat.repr` produces the reference decimal
rendering once the fuel covers the number. -/
theorem toDigitsCore_eq_repr_digits :
    ∀ (fuel n : Nat) (ds : List Char), n < fuel →
      Nat.toDigitsCore 10 fuel n ds = repr_digits n ++ ds := by
  intro fuel
  induction fuel with
  | zero => intro n ds h; omega
  | succ fuel ih =>
    intro n ds h
    rw [Nat.toDigitsCore]
    by_cases hz : n / 10 = 0
    · have hlt : n < 10 := by omega
      rw [if_pos hz, repr_digits, dif_pos hlt]
      have : n % 10 = n := Nat.mod_eq_of_lt hlt
      rw [this]
      rfl
    · have hge : ¬ n < 10 := by omega
      have hdiv : n / 10 < n := Nat.div_lt_self (by omega) (by omega)
      rw [if_neg hz]
      have hrhs : repr_digits n = repr_digits (n / 10) ++ [(n % 10).digitChar] := by
        rw [repr_digits, dif_neg hge]
      rw [hrhs, ih (n / 10) _ (by omega)]
      simp

/-- Helper: the characters of `Nat.repr` are the reference rendering. -/
theorem nat_repr_data (n : Nat) : (Nat.repr n).data = repr_digits n := by
  have h : (Nat.repr n).data = Nat.toDigitsCore 10 (n + 1) n [] := rfl
  rw [h, toDigitsCore_eq_repr_digits (n + 1) n [] (by omega), List.append_nil]

/-- Helper: reading the reference rendering back gives the number. -/
theorem nat_of_digits_repr_digits (n : Nat) : nat_of_digits (repr_digits n) = n := by
  induction n using Nat.strong_induction_on with
  | _ n ih =>
    rw [repr_digits]
    by_cases h : n < 10
    · rw [dif_pos h]
      have hdc : ∀ d, d < 10 → dv (Nat.digitChar d) = d := by decide
      simp only [nat_of_digits, List.foldl]
      rw [hdc n h]
      omega
    · rw [dif_neg h]
      have hdiv : n / 10 < n := Nat.div_lt_self (by omega) (by omega)
      have hv := ih (n / 10) hdiv
      simp only [nat_of_digits] at hv ⊢
      rw [List.foldl_append, hv]
      simp only [List.foldl]
      have hdc : ∀ d, d < 10 → dv (Nat.digitChar d) = d := by decide
      rw [hdc (n % 10) (Nat.mod_lt n (by omega))]
      omega

/-- Helper: decimal rendering of naturals is injective. -/
theorem nat_repr_inj (a b : Nat) (h : Nat.repr a = Nat.repr b) : a = b := by
  have hd : repr_digits a = repr_digits b := by
    rw [← nat_repr_data, ← nat_repr_data, h]
  have := congrArg nat_of_digits hd
  rwa [nat_of_digits_repr_digits, nat_of_digits_repr_digits] at this

/-- Helper: the uniquification candidates for distinct counters are distinct
file names. -/
theorem candidate_name_inj (stem sfx : String) (j k : Nat)
    (h : candidate_name stem sfx j = candidate_name stem sfx k) : j = k := by
  unfold candidate_name at h
  have hdata := congrArg String.data h
  simp only [String.data_append] at hdata
  have h1 := List.append_cancel_right hdata
  have h2 := List.append_cancel_left h1
  have h3 : repr_digits j = repr_digits k := by
    rw [← nat_repr_data, ← nat_repr_data]
    exact h2
  have := congrArg nat_of_digits h3
  rwa [nat_of_digits_repr_digits, nat_of_digits_repr_digits] at this

/-- Helper: among `existing.length + 2` consecutive candidates one does not
exist. -/
theorem exists_free_candidate (existing : List String) (stem sfx : String) (k : Nat) :
    ∃ j, k ≤ j ∧ j ≤ k + (existing.length + 1) ∧
      candidate_name stem sfx j ∉ existing := by
  by_contra hcon
  push_neg at hcon
  have hsub : (Finset.Icc k (k + (existing.length + 1))).image
      (candidate_name stem sfx) ⊆ existing.toFinset := by
    intro x hx
    simp only [Finset.mem_image, Finset.mem_Icc] at hx
    obtain ⟨j, ⟨hj1, hj2⟩, hj3⟩ := hx
    rw [List.mem_toFinset, ← hj3]
    exact hcon j hj1 hj2
  have hcard : ((Finset.Icc k (k + (existing.length + 1))).image
      (candidate_name stem sfx)).card = existing.length + 2 := by
    rw [Finset.card_image_of_injective _ (fun a b hab => candidate_name_inj stem sfx a b hab)]
    rw [Nat.card_Icc]
    omega
  have hle := Finset.card_le_card hsub
  rw [hcard] at hle
  have := List.toFinset_card_le existing
  omega

/-- Helper: with a free candidate within reach of the fuel, the
uniquification loop returns the first free candidate at or after the
starting counter. -/
theorem unique_path_loop_first_free (existing : List String) (stem sfx : String) :
    ∀ (fuel k : Nat),
      (∃ j, k ≤ j ∧ j ≤ k + fuel ∧ candidate_name stem sfx j ∉ existing) →
      ∃ j, k ≤ j ∧
        unique_path_loop existing stem sfx fuel k = candidate_name stem sfx j ∧
        candidate_name stem sfx j ∉ existing ∧
        (∀ i, k ≤ i → i < j → candidate_name stem sfx i ∈ existing) := by
  intro fuel
  induction fuel with
  | zero =>
    intro k hex
    obtain ⟨j, hj1, hj2, hj3⟩ := hex
    have hjk : j = k := by omega
    subst hjk
    exact ⟨j, le_refl j, rfl, hj3, fun i h1 h2 => absurd (lt_of_le_of_lt h1 h2) (lt_irrefl j)⟩
  | succ fuel ih =>
    intro k hex
    by_cases hk : candidate_name stem sfx k ∈ existing
    · have hex' : ∃ j, k + 1 ≤ j ∧ j ≤ (k + 1) + fuel ∧
          candidate_name stem sfx j ∉ existing := by
        obtain ⟨j, hj1, hj2, hj3⟩ := hex
        refine ⟨j, ?_, by omega, hj3⟩
        rcases Nat.eq_or_lt_of_le hj1 with rfl | hlt
        · exact absurd hk hj3
        · omega
      obtain ⟨j, hj1, hj2, hj3, hj4⟩ := ih (k + 1) hex'
      refine ⟨j, by omega, ?_, hj3, ?_⟩
      · simp only [unique_path_loop, hk, if_pos]
        exact hj2
      · intro i h1 h2
        rcases Nat.eq_or_lt_of_le h1 with rfl | hlt
        · exact hk
        · exact hj4 i (by omega) h2
    · refine ⟨k, le_refl k, ?_, hk, fun i h1 h2 => absurd (lt_of_le_of_lt h1 h2) (lt_irrefl k)⟩
      simp [unique_path_loop, hk]

/-- Claim C8 (amended): `unique_path` returns its argument when no file
exists there; when the file exists it returns the sibling obtained by
inserting a numeric suffix -N before the extension for the smallest N of at
least 2 whose candidate does not exist (so -2 exactly when that sibling is
itself absent); and the returned path never refers to an existing file. -/
theorem unique_path_free (existing : List String) (base : String) :
    (unique_path existing base ∉ existing) ∧
    (base ∉ existing → unique_path existing base = base) ∧
    (base ∈ existing → ∃ k, 2 ≤ k ∧
      unique_path existing base =
        candidate_name (py_stem_suffix base).1 (py_stem_suffix base).2 k ∧
      candidate_name (py_stem_suffix base).1 (py_stem_suffix base).2 k ∉ existing ∧
      (∀ i, 2 ≤ i → i < k →
        candidate_name (py_stem_suffix base).1 (py_stem_suffix base).2 i ∈ existing)) := by
  have hmain : base ∈ existing → ∃ k, 2 ≤ k ∧
      unique_path existing base =
        candidate_name (py_stem_suffix base).1 (py_stem_suffix base).2 k ∧
      candidate_name (py_stem_suffix base).1 (py_stem_suffix base).2 k ∉ existing ∧
      (∀ i, 2 ≤ i → i < k →
        candidate_name (py_stem_suffix base).1 (py_stem_suffix base).2 i ∈ existing) := by
    intro hb
    obtain ⟨j, hj1, hj2, hj3, hj4⟩ :=
      unique_path_loop_first_free existing (py_stem_suffix base).1 (py_stem_suffix base).2
        (existing.length + 1) 2
        (exists_free_candidate existing (py_stem_suffix base).1 (py_stem_suffix base).2 2)
    refine ⟨j, hj1, ?_, hj3, hj4⟩
    unfold unique_path
    rw [if_pos hb]
    exact hj2
  refine ⟨?_, ?_, hmain⟩
  · by_cases hb : base ∈ existing
    · obtain ⟨k, _, hk2, hk3, _⟩ := hmain hb
      rw [hk2]
      exact hk3
    · unfold unique_path
      rw [if_neg hb]
      exact hb
  · intro hb
    unfold unique_path
    rw [if_neg hb]

/-- Counterexample to claim C8 as stated: when both the file and its -2
sibling exist, `unique_path` returns the -3 sibling, not the claimed -2
one. -/
theorem unique_path_counterexample_c8 :
    py_stem_suffix "a.md" = ("a", ".md") ∧
    candidate_name "a" ".md" 2 = "a-2.md" ∧
    unique_path ["a.md", "a-2.md"] "a.md" = "a-3.md" ∧
    "a-3.md" ≠ "a-2.md" := by
  refine ⟨rfl, rfl, rfl, by decide⟩

/-- Witness for the amended claim C8: with only the base file existing, the
returned sibling is the -2 candidate, which is free. -/
theorem unique_path_free_witness :
    ∃ k, 2 ≤ k ∧
      unique_path ["a.md"] "a.md" =
        candidate_name (py_stem_suffix "a.md").1 (py_stem_suffix "a.md").2 k ∧
      candidate_name (py_stem_suffix "a.md").1 (py_stem_suffix "a.md").2 k ∉ ["a.md"] ∧
      (∀ i, 2 ≤ i → i < k →
        candidate_name (py_stem_suffix "a.md").1 (py_stem_suffix "a.md").2 i ∈ ["a.md"]) :=
  (unique_path_free ["a.md"] "a.md").2.2 (by decide)
